import Mathlib

/-! # nano-pow-server: work handler

A shallow embedding of `src/workserver/work_handler.cpp` and the properties of
its proof-of-work search, its response formatting and its job queue.

Conventions of the embedding

* `uint64_t` values are natural numbers, reduced `% 2 ^ 64` wherever the C++
  arithmetic can wrap; a `u128` number is a natural number below `2 ^ 128`.
* Byte buffers (`std::array<uint8_t, N>`) are lists of natural numbers; a
  `memcpy` between a `uint64_t` and eight bytes is the little-endian layout of
  the hosts the server is built for.
* A `double` is a rational number (every finite double is one); NaN and the
  infinities do not occur in the parts that are modelled.
* Code that lives outside `work_handler.cpp` (the Blake2b digest of OpenSSL,
  the random engine, the hex codecs of `u128`/`u256`, `from_multiplier`,
  `to_multiplier`) is a field of `externals`, so a theorem stated for an
  arbitrary `e : externals` holds for all behaviours of that code. Where a
  statement needs concrete hex codecs, `with_spec_codecs` and `spec_externals`
  supply the ones the specification describes.
* The job id dispenser is an `unsigned`: it is reduced `% 2 ^ 32`.
* The handler is a state machine: a request, a purge and each of the three
  parts of a posted worker task (pop under the queue lock, activation,
  completion) is one atomic step of `step`. Where the order of queue entries
  matters, `thread_step` splits a work_generate request into the part before
  `jobs_mutex` (which fetches the job id) and the block under it, so that
  requests on several threads interleave.
-/

namespace nano_pow_server

/-! ## Constants of the search -/

/-- The constant `UINT64_MAX` assigned to `max_64`. -/
def max_64 : Nat := 18446744073709551615

/-- The constant `max_iterations` of the search loop (ten billion trials). -/
def max_iterations : Nat := 10000000000

/-- The reseed period of the search loop (`iterations % 100000000 == 0`). -/
def reseed_period : Nat := 100000000

/-! ## Bytes and 64-bit words -/

/-- The eight bytes that `std::memcpy (dst, &value, 8)` writes for a `uint64_t`
value: little-endian, least significant byte first. -/
def u64_to_le_bytes (value : Nat) : List Nat :=
  (List.range 8).map (fun i => (value / 256 ^ i) % 256)

/-- The `uint64_t` that `std::memcpy (&value, src, 8)` reads from the first
eight bytes of a buffer (each entry taken as a `uint8_t`). -/
def le_bytes_to_u64 (src : List Nat) : Nat :=
  (List.range 8).foldl (fun acc i => acc + (src.getD i 0 % 256) * 256 ^ i) 0

/-- The 40-byte hash input: `work_value` in bytes 0..8, the root hash bytes
after it (`memcpy (&input[8], root_hash.bytes.data (), 32)`). -/
def pow_input (work_value : Nat) (root_hash : List Nat) : List Nat :=
  u64_to_le_bytes work_value ++ root_hash

/-- A left shift of a `uint64_t`. -/
def shl64 (x n : Nat) : Nat := (x <<< n) % 2 ^ 64

/-- The mask-and-shift expression assigned to `hash_reversed`. -/
def hash_reversed (hash_le : Nat) : Nat :=
  ((hash_le &&& 0xFF00000000000000) >>> 56) |||
  ((hash_le &&& 0x00FF000000000000) >>> 40) |||
  ((hash_le &&& 0x0000FF0000000000) >>> 24) |||
  ((hash_le &&& 0x000000FF00000000) >>> 8) |||
  shl64 (hash_le &&& 0x00000000FF000000) 8 |||
  shl64 (hash_le &&& 0x0000000000FF0000) 24 |||
  shl64 (hash_le &&& 0x000000000000FF00) 40 |||
  shl64 (hash_le &&& 0x00000000000000FF) 56

/-- The value `difficulty_threshold` computed before the loop, from the number
of the requested `u128` difficulty. -/
def difficulty_threshold (target_difficulty : Nat) : Nat :=
  let base_diff_64 := target_difficulty &&& 0xFFFFFFFFFFFFFFFF
  if base_diff_64 > 0 then max_64 / base_diff_64 else 0

/-! ## Code outside `work_handler.cpp` -/

/-- The functions the handler calls that are defined elsewhere. -/
structure externals where
  /-- `EVP_DigestInit_ex`/`Update`/`Final_ex` with `EVP_blake2b512`: the 64
  digest bytes of an input buffer. -/
  digest : List Nat → List Nat
  /-- The value of the `k`-th call `dis (gen)` in a worker task. -/
  dis : Nat → Nat
  /-- The function `from_multiplier (multiplier, base_difficulty)`. -/
  from_multiplier : Rat → Nat → Nat
  /-- The function `to_multiplier (difficulty, base_difficulty)`. -/
  to_multiplier : Nat → Nat → Rat
  /-- The constructor `u128 (hex)` and the method `u128::from_hex`, giving the
  number of the value; the error is the message of the exception it throws. -/
  u128_from_hex : String → Except String Nat
  /-- The constructor `u256 (hex)` and the method `u256::from_hex`, giving the
  32 bytes; the error is the message of the exception it throws. -/
  u256_from_hex : String → Except String (List Nat)
  /-- The member `bytes` of the `u128` that holds a number. -/
  u128_bytes : Nat → List Nat
  /-- The method `u128::to_hex` of a difficulty, by its number. -/
  u128_to_hex : Nat → String

/-- The `k`-th draw as a `uint64_t`. -/
def draw (e : externals) (k : Nat) : Nat := e.dis k % 2 ^ 64

/-- The `hash_reversed` value of one trial: digest of the 40-byte input, first
eight digest bytes read as `hash_le`, then byte-swapped. -/
def trial_hash_reversed (e : externals) (root_hash : List Nat) (work_value : Nat) : Nat :=
  hash_reversed (le_bytes_to_u64 (e.digest (pow_input work_value root_hash)))

/-! ## The search loop -/

/-- The local variables of the search that change in the loop; `draws` counts
the calls of `dis (gen)` made so far. -/
structure search_state where
  work_value : Nat
  iterations : Nat
  found : Bool
  draws : Nat
deriving DecidableEq, Repr

/-- One execution of the loop body. -/
def search_body (e : externals) (root_hash : List Nat) (threshold : Nat)
    (s : search_state) : search_state :=
  if trial_hash_reversed e root_hash s.work_value < threshold then
    { s with found := true }
  else
    let work_value := (s.work_value + 1) % 2 ^ 64
    let iterations := (s.iterations + 1) % 2 ^ 64
    if iterations > 0 ∧ iterations % reseed_period = 0 then
      { work_value := draw e s.draws, iterations := iterations, found := false,
        draws := s.draws + 1 }
    else
      { work_value := work_value, iterations := iterations, found := false,
        draws := s.draws }

/-- The loop `while (!found && iterations < max_iterations)`, unrolled at most
`fuel` times. -/
def search_loop (e : externals) (root_hash : List Nat) (threshold : Nat) :
    Nat → search_state → search_state
  | 0, s => s
  | fuel + 1, s =>
    if s.found = false ∧ s.iterations < max_iterations then
      search_loop e root_hash threshold fuel (search_body e root_hash threshold s)
    else s

/-- The state in which the search starts: one draw for `work_value`. -/
def search_init (e : externals) : search_state :=
  { work_value := draw e 0, iterations := 0, found := false, draws := 1 }

/-- The state of the local variables when the loop is left, for a job with the
given root hash and requested difficulty. -/
def search (e : externals) (root_hash : List Nat) (target_difficulty : Nat) : search_state :=
  search_loop e root_hash (difficulty_threshold target_difficulty) max_iterations
    (search_init e)

/-! ## The result of a job -/

/-- The `result` member of a job: `work.bytes`, the number of `difficulty`,
and `multiplier`. -/
structure job_result where
  work : List Nat
  difficulty : Nat
  multiplier : Rat
deriving DecidableEq, Repr

/-- The bytes of `job.result.work` after the loop: all sixteen zero, then the
eight bytes of `work_value` copied to the front. -/
def store_work (work_value : Nat) : List Nat :=
  u64_to_le_bytes work_value ++ (List.replicate 16 0).drop 8

/-- The value `actual_diff_64` of the recomputation in the found branch. -/
def actual_diff_64 (hash_rev : Nat) : Nat :=
  if hash_rev > 0 then max_64 / hash_rev else max_64

/-- The `u128` built by `set (static_cast<uint128_t> (actual_diff_64))`. -/
def actual_difficulty (hash_rev : Nat) : Nat := actual_diff_64 hash_rev % 2 ^ 128

/-- The non-mock branch of the worker task: run the search and fill
`job.result`. -/
def generate_result (e : externals) (base_difficulty : Nat) (root_hash : List Nat)
    (target_difficulty : Nat) : job_result :=
  let s := search e root_hash target_difficulty
  if s.found then
    let hash_rev := trial_hash_reversed e root_hash s.work_value
    { work := store_work s.work_value
      difficulty := actual_difficulty hash_rev
      multiplier := e.to_multiplier (actual_difficulty hash_rev) base_difficulty }
  else
    { work := store_work s.work_value
      difficulty := target_difficulty
      multiplier := 1 }

/-- The low eight bytes of a `u128` byte array, read as a little-endian
64-bit value. -/
def work_nonce (work : List Nat) : Nat := le_bytes_to_u64 work

/-! ## Formatting the `work` field -/

/-- What `work_hex << std::setw (2) << static_cast<unsigned int> (byte)` appends
under `std::hex`, `std::uppercase`, `std::noshowbase` and `std::setfill ('0')`:
the hexadecimal digits of the value in upper case, padded on the left with `0`
to width two. -/
def put_hex_byte (byte : Nat) : List Char :=
  let digits := (Nat.toDigits 16 byte).map Char.toUpper
  List.replicate (2 - digits.length) '0' ++ digits

/-- The string `work_hex.str ()`: bytes 7 down to 0 of `job.result.work.bytes`,
each a `uint8_t`. -/
def work_hex (work : List Nat) : String :=
  String.mk (([7, 6, 5, 4, 3, 2, 1, 0] : List Nat).flatMap
    (fun i => put_hex_byte (work.getD i 0 % 256)))

/-- The value of one hexadecimal digit character. -/
def hex_digit_value (c : Char) : Nat :=
  if '0'.toNat ≤ c.toNat ∧ c.toNat ≤ '9'.toNat then c.toNat - '0'.toNat
  else if 'A'.toNat ≤ c.toNat ∧ c.toNat ≤ 'F'.toNat then c.toNat - 'A'.toNat + 10
  else if 'a'.toNat ≤ c.toNat ∧ c.toNat ≤ 'f'.toNat then c.toNat - 'a'.toNat + 10
  else 0

/-- A string of hexadecimal digits read as a base-16 number, most significant
digit first. -/
def read_base16 (s : String) : Nat :=
  s.data.foldl (fun acc c => acc * 16 + hex_digit_value c) 0

/-- The sixteen characters `0-9`, `A-F`. -/
def upper_hex_chars : List Char := "0123456789ABCDEF".data

/-! ## Requests, responses and jobs -/

/-- The server configuration read by the handler. `devices` is
`config.devices.size ()`. -/
structure config where
  devices : Nat
  base_difficulty : Nat
  mock_work_generation_delay : Nat
  request_limit : Nat
  allow_control : Bool
  allow_prioritization : Bool
  /-- Modelled from the spec: the capacity of the bounded ring of completed
  jobs, declared outside `work_handler.cpp`. -/
  completed_capacity : Nat
deriving DecidableEq, Repr

/-- The fields of a parsed request body (`boost::property_tree::ptree`).
`multiplier` and `priority` hold the value when the field is present and
converts to `double`, respectively `unsigned`; `get` falls back to its default
otherwise. -/
structure ptree_request where
  id : Option String := none
  action : Option String := none
  hash : Option String := none
  work : Option String := none
  difficulty : Option String := none
  multiplier : Option Rat := none
  priority : Option Nat := none
deriving DecidableEq, Repr

/-- A value stored in a response tree by `put`. -/
inductive field_value where
  | str (s : String)
  | num (q : Rat)
  | bool (b : Bool)
deriving DecidableEq, Repr

/-- A response tree: the fields in the order they were `put`. No handler puts
the same key twice, so `put` always appends. -/
abbrev response := List (String × field_value)

/-- The value of a field of a response, if present. -/
def response.field (r : response) (key : String) : Option field_value :=
  (r.find? (fun kv => kv.1 == key)).map Prod.snd

/-- The lambda `attach_correlation_id`. -/
def attach_correlation_id (id : Option String) (r : response) : response :=
  match id with
  | some i => r ++ [("id", field_value.str i)]
  | none => r

/-- The lambda `create_error_response`. -/
def create_error_response (id : Option String) (error_a : String) : response :=
  attach_correlation_id id [("error", field_value.str error_a)]

/-- The `request` member of a job. -/
structure job_request where
  root_hash : List Nat
  difficulty : Nat
  multiplier : Rat
deriving DecidableEq, Repr

/-- A job. The start and end times are not modelled. -/
structure job where
  job_id : Nat
  priority : Nat
  request : job_request
  result : job_result
deriving DecidableEq, Repr

/-- The job built by `job::job ()` when the dispenser holds `dispensed`: the
id is the value fetched; the other members have their defaults. -/
def job.new (dispensed : Nat) : job :=
  { job_id := dispensed
    priority := 0
    request := { root_hash := [], difficulty := 0, multiplier := 0 }
    result := { work := [], difficulty := 0, multiplier := 0 } }

/-- Modelled from the spec: the order of the priority queue, from the
comparison operator of `job` declared in `work_handler.hpp`: higher priority
first, ties broken by lower id first. -/
def job.before (a b : job) : Bool :=
  decide (b.priority < a.priority) || (a.priority == b.priority && decide (a.job_id < b.job_id))

/-- The call `jobs.push (job)`: the queue is kept as the list of its jobs in
the order `top`/`pop` deliver them. -/
def queue_push (j : job) : List job → List job
  | [] => [j]
  | x :: xs => if j.before x then j :: x :: xs else x :: queue_push j xs

/-- The state of a `work_handler`. -/
structure work_handler where
  /-- The static `job::job_id_dispenser` (an `std::atomic<unsigned>`). -/
  job_id_dispenser : Nat
  /-- The priority queue `jobs`, top first. -/
  jobs : List job
  /-- The collection `active_jobs`. -/
  active_jobs : List job
  /-- The collection `completed_jobs`, oldest first. -/
  completed_jobs : List job
  /-- The tasks posted to `pool` that have not started, each with the
  `correlation_id` it captured. -/
  posted : List (Option String)
  /-- The worker tasks that have popped their job and not yet inserted it
  into `active_jobs`. -/
  popped : List (Option String × job)
  /-- The worker tasks between the insertion of their job into `active_jobs`
  and its move to `completed_jobs`. -/
  running : List (Option String × job)
deriving DecidableEq, Repr

/-- The handler state at start-up: the dispenser holds 1, every collection is
empty. -/
def work_handler.init : work_handler :=
  { job_id_dispenser := 1, jobs := [], active_jobs := [], completed_jobs := [],
    posted := [], popped := [], running := [] }

/-- The difficulty a request asks for, lines 182 to 193 and 444 to 455: the
base difficulty, replaced by the `difficulty` field when present, replaced by
`from_multiplier` when the multiplier is positive. An error is the exception
of `from_hex`. -/
def requested_difficulty (e : externals) (cfg : config) (request : ptree_request) :
    Except String Nat :=
  let supplied : Except String Nat :=
    match request.difficulty with
    | some difficulty_hex => e.u128_from_hex difficulty_hex
    | none => .ok cfg.base_difficulty
  match supplied with
  | .error what => .error what
  | .ok difficulty =>
    let multiplier := request.multiplier.getD 0
    if multiplier > 0 then .ok (e.from_multiplier multiplier cfg.base_difficulty)
    else .ok difficulty

/-- The block "Queue the request as a job" and the `boost::asio::post` after
it: under `jobs_mutex`, push the job if the queue is below the request limit
and post a worker task, else throw. -/
def queue_request (cfg : config) (st : work_handler) (job_l : job)
    (correlation_id : Option String) : work_handler × Option response :=
  if st.jobs.length < cfg.request_limit then
    ({ st with jobs := queue_push job_l st.jobs, posted := st.posted ++ [correlation_id] },
      none)
  else
    (st, some (create_error_response correlation_id "Work request limit exceeded"))

/-- The `work_generate` branch of `handle_request_async`. The second component
is the response passed to `response_handler` before the function returns: the
error response of the catch block, or nothing when a worker task was posted. -/
def handle_work_generate (e : externals) (cfg : config) (st : work_handler)
    (request : ptree_request) : work_handler × Option response :=
  let correlation_id := request.id
  if cfg.devices = 0 then
    (st, some (create_error_response correlation_id "No work device has been configured"))
  else
    let job_l := job.new st.job_id_dispenser
    let st := { st with job_id_dispenser := (st.job_id_dispenser + 1) % 2 ^ 32 }
    match request.hash with
    | none =>
      (st, some (create_error_response correlation_id "work_generate failed: missing hash value"))
    | some root_hash =>
      match e.u256_from_hex root_hash with
      | .error what => (st, some (create_error_response correlation_id what))
      | .ok hash =>
        match requested_difficulty e cfg request with
        | .error what => (st, some (create_error_response correlation_id what))
        | .ok difficulty =>
          let job_l := { job_l with
            request := { job_l.request with root_hash := hash, difficulty := difficulty } }
          let pri := request.priority.getD 0
          let job_l := if cfg.allow_prioritization then { job_l with priority := pri } else job_l
          queue_request cfg st job_l correlation_id

/-- The `work_validate` branch of `handle_request_async`. -/
def handle_work_validate (e : externals) (cfg : config) (st : work_handler)
    (request : ptree_request) : work_handler × Option response :=
  let correlation_id := request.id
  match request.hash with
  | none =>
    (st, some (create_error_response correlation_id "work_generate failed: missing hash value"))
  | some hash_hex =>
    match e.u256_from_hex hash_hex with
    | .error what => (st, some (create_error_response correlation_id what))
    | .ok _ =>
      match request.work with
      | none =>
        (st, some (create_error_response correlation_id
          "work_generate failed: missing work value"))
      | some work_hex =>
        match e.u128_from_hex work_hex with
        | .error what => (st, some (create_error_response correlation_id what))
        | .ok _ =>
          match requested_difficulty e cfg request with
          | .error what => (st, some (create_error_response correlation_id what))
          | .ok _ =>
            let passes := true
            (st, some (attach_correlation_id correlation_id
              [("valid", field_value.str (if passes then "1" else "0")),
               ("difficulty", field_value.str "0x2000000000000000"),
               ("multiplier", field_value.str "1.0")]))

/-- Modelled from the spec: `work_handler::remove_job`, defined outside
`work_handler.cpp`: removes the first queued job whose `request.root_hash`
equals the argument and returns true; returns false if there is none. -/
def remove_job (st : work_handler) (hash : List Nat) : work_handler × Bool :=
  if st.jobs.any (fun j => j.request.root_hash == hash) then
    ({ st with jobs := st.jobs.eraseP (fun j => j.request.root_hash == hash) }, true)
  else (st, false)

/-- The `work_cancel` branch of `handle_request_async`. -/
def handle_work_cancel (e : externals) (st : work_handler)
    (request : ptree_request) : work_handler × Option response :=
  let correlation_id := request.id
  match request.hash with
  | none =>
    (st, some (create_error_response correlation_id "work_cancel failed: missing hash value"))
  | some hash_hex =>
    match e.u256_from_hex hash_hex with
    | .error what => (st, some (create_error_response correlation_id what))
    | .ok hash =>
      let removed := remove_job st hash
      if removed.2 then
        (removed.1, some (attach_correlation_id correlation_id
          [("status", field_value.str "cancelled")]))
      else
        (removed.1, some (create_error_response correlation_id "Hash not found in work queue"))

/-- The function `handle_request_async` on a body that parses. -/
def handle_request_async (e : externals) (cfg : config) (st : work_handler)
    (request : ptree_request) : work_handler × Option response :=
  if request.action = some "work_generate" then handle_work_generate e cfg st request
  else if request.action = some "work_validate" then handle_work_validate e cfg st request
  else if request.action = some "work_cancel" then handle_work_cancel e st request
  else (st, some (create_error_response request.id "Invalid action field"))

/-- The function `handle_queue_delete_request`. -/
def handle_queue_delete_request (cfg : config) (st : work_handler) :
    work_handler × response :=
  if cfg.allow_control then
    ({ st with jobs := [] }, [("success", field_value.bool true)])
  else
    (st, [("error", field_value.str
      "Control requests are not allowed. This must be enabled in the server configuration.")])

/-- The first part of a posted worker task, run under `jobs_mutex` by the
`k`-th waiting task: pop the top job, or answer that there is none. -/
def worker_pop (st : work_handler) (k : Nat) : work_handler × Option response :=
  match st.posted.get? k with
  | none => (st, none)
  | some correlation_id =>
    let st := { st with posted := st.posted.eraseIdx k }
    match st.jobs with
    | job :: rest => ({ st with jobs := rest, popped := st.popped ++ [(correlation_id, job)] }, none)
    | [] => (st, some (create_error_response correlation_id "No jobs available"))

/-- Modelled from the spec: `active_jobs.insert (job)`; the collection is
declared outside `work_handler.cpp` and is a set of jobs keyed by id. -/
def active_insert (j : job) (active_jobs : List job) : List job :=
  if active_jobs.any (fun a => a.job_id == j.job_id) then active_jobs else active_jobs ++ [j]

/-- Modelled from the spec: `active_jobs.erase (job)`, on the set keyed by id. -/
def active_erase (j : job) (active_jobs : List job) : List job :=
  active_jobs.filter (fun a => a.job_id != j.job_id)

/-- Modelled from the spec: `completed_jobs.push_back (job)` on the bounded
ring of completed jobs: when the ring is full the oldest entries go. -/
def completed_push_back (capacity : Nat) (j : job) (completed_jobs : List job) : List job :=
  (completed_jobs ++ [j]).drop ((completed_jobs ++ [j]).length - capacity)

/-- The response a worker task builds from `job.result`, lines 392 to 401;
`testing` is true in the mock branch, which has put that field before. -/
def generate_response (e : externals) (result : job_result) (testing : Bool)
    (correlation_id : Option String) : response :=
  attach_correlation_id correlation_id
    ((if testing then [("testing", field_value.bool true)] else []) ++
      [("work", field_value.str (work_hex result.work)),
       ("difficulty", field_value.str (e.u128_to_hex result.difficulty)),
       ("multiplier", field_value.num result.multiplier)])

/-- The result a worker task stores in `job.result`, lines 249 to 390, and
whether it is the mock result: the search when
`mock_work_generation_delay` is 0, the fixed mock values otherwise. An error is
the exception of a `u128` constructor. -/
def worker_result (e : externals) (cfg : config) (j : job) : Except String (job_result × Bool) :=
  if cfg.mock_work_generation_delay = 0 then
    .ok (generate_result e cfg.base_difficulty j.request.root_hash j.request.difficulty, false)
  else
    match e.u128_from_hex "2feaeaa000000000" with
    | .error what => .error what
    | .ok work =>
      match e.u128_from_hex "0x2ffee0000000000" with
      | .error what => .error what
      | .ok difficulty =>
        .ok ({ work := e.u128_bytes work, difficulty := difficulty, multiplier := 1.3847 }, true)

/-- The second part of a worker task, for the `k`-th task that holds a popped
job: acquire a device, whose outcome is `device` (the error is the message of
the exception of `aquire_first_available_device`), and insert the job into
`active_jobs`. -/
def worker_activate (st : work_handler) (k : Nat) (device : Except String Unit) :
    work_handler × Option response :=
  match st.popped.get? k with
  | none => (st, none)
  | some (correlation_id, job) =>
    let st := { st with popped := st.popped.eraseIdx k }
    match device with
    | .error what => (st, some (create_error_response correlation_id what))
    | .ok _ =>
      ({ st with active_jobs := active_insert job st.active_jobs,
                 running := st.running ++ [(correlation_id, job)] }, none)

/-- The last part of a worker task, for the `k`-th running task: compute the
result, answer, erase the job from `active_jobs` and push it to
`completed_jobs`. -/
def worker_complete (e : externals) (cfg : config) (st : work_handler) (k : Nat) :
    work_handler × Option response :=
  match st.running.get? k with
  | none => (st, none)
  | some (correlation_id, job) =>
    let st := { st with running := st.running.eraseIdx k }
    match worker_result e cfg job with
    | .error what => (st, some (create_error_response correlation_id what))
    | .ok (result, testing) =>
      let job := { job with result := result }
      ({ st with active_jobs := active_erase job st.active_jobs,
                 completed_jobs := completed_push_back cfg.completed_capacity job
                   st.completed_jobs },
        some (generate_response e result testing correlation_id))

/-- The atomic steps of the server: a request handled by
`handle_request_async`, a purge by `handle_queue_delete_request`, and the three
parts of a posted worker task. -/
inductive event where
  | request (r : ptree_request)
  | queue_delete
  | worker_pop (k : Nat)
  | worker_activate (k : Nat) (device : Except String Unit)
  | worker_complete (k : Nat)

/-- The state after a step and the response the step emits, if any. -/
def step (e : externals) (cfg : config) (st : work_handler) :
    event → work_handler × Option response
  | event.request r => handle_request_async e cfg st r
  | event.queue_delete =>
    ((handle_queue_delete_request cfg st).1, some (handle_queue_delete_request cfg st).2)
  | event.worker_pop k => worker_pop st k
  | event.worker_activate k device => worker_activate st k device
  | event.worker_complete k => worker_complete e cfg st k

/-- The state after a sequence of steps. -/
def run (e : externals) (cfg : config) (st : work_handler) (events : List event) :
    work_handler :=
  events.foldl (fun s ev => (step e cfg s ev).1) st

/-! ## Hex codecs of the specification -/

/-- The value of a hexadecimal digit of either case, if the character is one. -/
def hex_char_value (c : Char) : Option Nat :=
  if ('0'.toNat ≤ c.toNat ∧ c.toNat ≤ '9'.toNat) ∨ ('A'.toNat ≤ c.toNat ∧ c.toNat ≤ 'F'.toNat)
      ∨ ('a'.toNat ≤ c.toNat ∧ c.toNat ≤ 'f'.toNat) then
    some (hex_digit_value c)
  else none

/-- The number written by a list of hexadecimal digits, if all are digits. -/
def hex_digits_value : List Char → Option Nat
  | cs => cs.foldl (fun acc c =>
      match acc, hex_char_value c with
      | some a, some v => some (a * 16 + v)
      | _, _ => none) (some 0)

/-- Modelled from the spec: the hex parser of `U128` and `U256` (sections 3
and 4.1), defined outside `work_handler.cpp`: an optional `0x`, digits of
either case, any length up to the width (left-padded with zeros); it fails on
a character that is not a hex digit and on an input longer than the width. -/
def spec_from_hex (width_digits : Nat) (hex : String) : Except String Nat :=
  let digits := match hex.data with
    | '0' :: 'x' :: rest => rest
    | cs => cs
  if digits.length > width_digits then .error "InvalidHex"
  else
    match hex_digits_value digits with
    | some n => .ok n
    | none => .error "InvalidHex"

/-- Modelled from the spec: the big-endian bytes that a `U128` (`width = 16`)
or `U256` (`width = 32`) wraps for a number. -/
def spec_be_bytes (width : Nat) (n : Nat) : List Nat :=
  (List.range width).map (fun i => (n / 256 ^ (width - 1 - i)) % 256)

/-- The external code with the hex parsers and byte views of the
specification. -/
def with_spec_codecs (e : externals) : externals :=
  { e with
    u128_from_hex := spec_from_hex 32
    u256_from_hex := fun hex => (spec_from_hex 64 hex).map (spec_be_bytes 32)
    u128_bytes := spec_be_bytes 16 }

/-- Modelled from the spec: the hex formatter of `U128` and `U256` (sections 3
and 4.1), defined outside `work_handler.cpp`: the full width, lower-case
digits, no `0x`. -/
def spec_to_hex (width_digits : Nat) (n : Nat) : String :=
  String.mk ((List.range width_digits).map
    (fun i => Nat.digitChar ((n / 16 ^ (width_digits - 1 - i)) % 16)))

/-- The external code with the hex parsers, byte views and formatter of the
specification. -/
def spec_externals (e : externals) : externals :=
  { with_spec_codecs e with u128_to_hex := spec_to_hex 32 }

/-- A `work_generate` request for the hash of 64 zero digits, with no other
field. -/
def zero_hash_request : ptree_request :=
  { action := some "work_generate"
    hash := some "0000000000000000000000000000000000000000000000000000000000000000" }

/-- A `work_generate` request without a `hash` field. -/
def missing_hash_request : ptree_request :=
  { action := some "work_generate" }

/-- A `work_validate` request for the all-zero hash, the all-zero work and a
difficulty whose low 64 bits are zero. -/
def validate_zero_difficulty_request : ptree_request :=
  { action := some "work_validate"
    hash := some "0000000000000000000000000000000000000000000000000000000000000000"
    work := some "0000000000000000"
    difficulty := some "00000000000000000000000000000000" }

/-- A configuration with one device, the default base difficulty, no mock
delay and a request limit of 2. -/
def sample_config : config :=
  { devices := 1
    base_difficulty := 0x2000000000000000
    mock_work_generation_delay := 0
    request_limit := 2
    allow_control := false
    allow_prioritization := false
    completed_capacity := 4 }

/-- A `work_generate` request for the all-zero hash with a multiplier and the
given `difficulty` field. -/
def generate_request_with_difficulty (difficulty : Option String) : ptree_request :=
  { action := some "work_generate"
    hash := some "0000000000000000000000000000000000000000000000000000000000000000"
    difficulty := difficulty
    multiplier := some 2 }

/-- A handler state with one running worker task, whose job asks for the
difficulty 0 on the all-zero root hash. -/
def sample_running_state : work_handler :=
  { work_handler.init with
    job_id_dispenser := 2
    running := [(some "a", { job.new 1 with
      request := { root_hash := List.replicate 32 0, difficulty := 0, multiplier := 0 } })] }

/-- The value that `job_id_dispenser.fetch_add (1)` leaves in the dispenser, an
`std::atomic<unsigned>` of 32 bits. -/
def dispenser_fetch_add (dispenser : Nat) : Nat := (dispenser + 1) % 2 ^ 32

/-- The dispenser after `n` jobs have been constructed in the process; it is
initialised with 1. -/
def dispenser_after : Nat → Nat
  | 0 => 1
  | n + 1 => dispenser_fetch_add (dispenser_after n)

/-- The id of the job constructed after `n` earlier constructions: `job::job ()`
stores the value fetched from the dispenser. -/
def constructed_job_id (n : Nat) : Nat := (job.new (dispenser_after n)).job_id

/-- A response, if one is emitted, carries the correlation id: its `id` field
is the id when there is one and is absent otherwise. -/
def echoes (id : Option String) (emitted : Option response) : Prop :=
  ∀ r, emitted = some r → response.field r "id" = id.map field_value.str

/-- The ids of the queued jobs, in queue order. -/
def queued_ids (st : work_handler) : List Nat := st.jobs.map job.job_id

/-- The ids of the jobs that worker tasks have popped and not yet activated. -/
def popped_ids (st : work_handler) : List Nat := st.popped.map (fun t => t.2.job_id)

/-- The ids of the jobs of the running worker tasks. -/
def running_ids (st : work_handler) : List Nat := st.running.map (fun t => t.2.job_id)

/-- The ids of the jobs in `active_jobs`. -/
def active_ids (st : work_handler) : List Nat := st.active_jobs.map job.job_id

/-- The ids of the jobs in `completed_jobs`. -/
def completed_ids (st : work_handler) : List Nat := st.completed_jobs.map job.job_id

/-- The bookkeeping of job ids while the dispenser has not wrapped: every id
in use is below the dispenser, the jobs that are queued or popped have
distinct ids that occur in no later stage, and no active id is completed. -/
def ids_invariant (st : work_handler) : Prop :=
  (∀ i, i ∈ queued_ids st ++ popped_ids st ++ running_ids st ++ active_ids st
      ++ completed_ids st → i < st.job_id_dispenser) ∧
  (queued_ids st ++ popped_ids st).Nodup ∧
  (∀ i, i ∈ queued_ids st ++ popped_ids st →
    i ∉ running_ids st ++ active_ids st ++ completed_ids st) ∧
  (∀ i, i ∈ active_ids st → i ∉ completed_ids st)

/-- Every queued job has the default priority. -/
def default_priorities (st : work_handler) : Prop :=
  ∀ j ∈ st.jobs, j.priority = 0

/-- The part of the `work_generate` branch that runs before the block under
`jobs_mutex`, lines 167 to 206: the device check, the construction of `job_l`
(which fetches its id from the dispenser, outside any lock), the hash, the
difficulty and the priority. It gives the value left in the dispenser and the
job to queue, or the message of the exception thrown. -/
def prepare_work_generate (e : externals) (cfg : config) (dispenser : Nat)
    (request : ptree_request) : Nat × Except String job :=
  if cfg.devices = 0 then
    (dispenser, .error "No work device has been configured")
  else
    let job_l := job.new dispenser
    let dispenser := (dispenser + 1) % 2 ^ 32
    match request.hash with
    | none => (dispenser, .error "work_generate failed: missing hash value")
    | some root_hash =>
      match e.u256_from_hex root_hash with
      | .error what => (dispenser, .error what)
      | .ok hash =>
        match requested_difficulty e cfg request with
        | .error what => (dispenser, .error what)
        | .ok difficulty =>
          let job_l := { job_l with
            request := { job_l.request with root_hash := hash, difficulty := difficulty } }
          let pri := request.priority.getD 0
          let job_l := if cfg.allow_prioritization then { job_l with priority := pri } else job_l
          (dispenser, .ok job_l)

/-- The handler together with the requests that are being handled by other
threads: `submitting` holds the work_generate requests that have constructed
their job and have not yet entered the block under `jobs_mutex`, each with its
`correlation_id` and its `job_l`. -/
structure handler_threads where
  handler : work_handler
  submitting : List (Option String × job)
deriving DecidableEq, Repr

/-- The start-up state: the initial handler and no request in flight. -/
def handler_threads.init : handler_threads :=
  { handler := work_handler.init, submitting := [] }

/-- The steps of the handler when requests run on several threads
(`handle_request_async` is re-entrant): a work_generate request is two steps,
the part before the lock and the block under the lock with the post; every
other step is a step of `step`. -/
inductive thread_event where
  | begin_request (r : ptree_request)
  | enter_queue (k : Nat)
  | other (ev : event)

/-- The state after a step of the threaded handler and the response the step
emits, if any. `begin_request` runs a work_generate request up to the block
under `jobs_mutex` (any other request completely); `enter_queue k` lets the
`k`-th submitting request run that block and post its worker task. -/
def thread_step (e : externals) (cfg : config) (s : handler_threads) :
    thread_event → handler_threads × Option response
  | thread_event.begin_request r =>
    if r.action = some "work_generate" then
      match prepare_work_generate e cfg s.handler.job_id_dispenser r with
      | (dispenser, .error what) =>
        ({ handler := { s.handler with job_id_dispenser := dispenser }
           submitting := s.submitting },
          some (create_error_response r.id what))
      | (dispenser, .ok job_l) =>
        ({ handler := { s.handler with job_id_dispenser := dispenser }
           submitting := s.submitting ++ [(r.id, job_l)] }, none)
    else
      ({ handler := (handle_request_async e cfg s.handler r).1, submitting := s.submitting },
        (handle_request_async e cfg s.handler r).2)
  | thread_event.enter_queue k =>
    match s.submitting.get? k with
    | none => (s, none)
    | some (correlation_id, job_l) =>
      ({ handler := (queue_request cfg s.handler job_l correlation_id).1
         submitting := s.submitting.eraseIdx k },
        (queue_request cfg s.handler job_l correlation_id).2)
  | thread_event.other ev =>
    ({ handler := (step e cfg s.handler ev).1, submitting := s.submitting },
      (step e cfg s.handler ev).2)

/-- The state of the threaded handler after a schedule of steps. -/
def thread_run (e : externals) (cfg : config) (s : handler_threads)
    (schedule : List thread_event) : handler_threads :=
  schedule.foldl (fun t ev => (thread_step e cfg t ev).1) s

/-- The schedule in which a step of `step` runs without interleaving: a
request runs its part before the lock and then at once its block under the
lock; any other step is itself. -/
def sequential : event → List thread_event
  | event.request r => [thread_event.begin_request r, thread_event.enter_queue 0]
  | ev => [thread_event.other ev]

/-- Every queued job and every job about to be queued has the default
priority. -/
def thread_default_priorities (s : handler_threads) : Prop :=
  default_priorities s.handler ∧ ∀ t ∈ s.submitting, t.2.priority = 0

/-- The reseed bookkeeping of the loop: the number of draws made is one more
than the number of completed periods, and right after a reseed `work_value` is
the draw just made. -/
def reseed_invariant (e : externals) (s : search_state) : Prop :=
  s.draws = s.iterations / reseed_period + 1 ∧
    (0 < s.iterations → s.iterations % reseed_period = 0 →
      s.work_value = draw e (s.iterations / reseed_period))

/-- The state of a loop that accepts no trial and draws `k * 2^40` at its
`k`-th draw, after `iterations` trials: the nonce is `iterations mod 10^8`
past the draw of the current period. -/
def spaced_invariant (s : search_state) : Prop :=
  s.found = false ∧ s.iterations ≤ max_iterations ∧
    s.draws = s.iterations / 100000000 + 1 ∧
    s.work_value = s.iterations / 100000000 * 2 ^ 40 + s.iterations % 100000000

/-- Whether the loop, unrolled at most `fuel` times from the state `s`, hashes
the nonce `w` in one of its trials: every execution of the loop body hashes
the `work_value` it starts with. -/
def search_tests (e : externals) (root_hash : List Nat) (threshold : Nat) :
    Nat → search_state → Nat → Bool
  | 0, _, _ => false
  | fuel + 1, s, w =>
    if s.found = false ∧ s.iterations < max_iterations then
      (s.work_value == w) || search_tests e root_hash threshold fuel
        (search_body e root_hash threshold s) w
    else false

/-- An instance of the external code for evaluation: every digest byte is
zero, the draws are 7, 8, 9, ... -/
def zero_digest_env : externals :=
  { digest := fun _ => List.replicate 64 0
    dis := fun k => 7 + k
    from_multiplier := fun _ b => b
    to_multiplier := fun _ _ => 1
    u128_from_hex := fun _ => .error "hex"
    u256_from_hex := fun _ => .error "hex"
    u128_bytes := fun _ => List.replicate 16 0
    u128_to_hex := fun _ => "" }

/-- The configuration `sample_config` with `mock_work_generation_delay = 1`. -/
def mock_config : config :=
  { sample_config with mock_work_generation_delay := 1 }

/-- The handler state in which the worker task of the mock scenario completes:
after the request for the all-zero hash was queued, popped and activated. -/
def mock_running_state (e : externals) : work_handler :=
  run (spec_externals e) mock_config work_handler.init
    [event.request zero_hash_request, event.worker_pop 0, event.worker_activate 0 (.ok ())]

/-- The steps of one job through the mock worker: submit, pop, activate,
complete. -/
def one_job_events : List event :=
  [event.request zero_hash_request, event.worker_pop 0, event.worker_activate 0 (.ok ()),
   event.worker_complete 0]

/-- A `work_generate` request for the hash `1`. -/
def one_hash_request : ptree_request :=
  { action := some "work_generate"
    hash := some "0000000000000000000000000000000000000000000000000000000000000001" }

/-- A `work_generate` request for the all-zero hash that supplies the
priority 7. -/
def priority_request : ptree_request :=
  { zero_hash_request with priority := some 7 }

/-- The external code `e` with the random draws `0, 2^40, 2 * 2^40, ...`. -/
def spaced_draws (e : externals) : externals :=
  { e with dis := fun k => k * 2 ^ 40 }

/-- An instance of the external code in which no trial passes: every digest
byte is 255, so `hash_reversed` is `2^64 - 1`; the `k`-th draw is `k * 2^40`. -/
def never_passing_env : externals :=
  { zero_digest_env with
    digest := fun _ => List.replicate 64 255
    dis := fun k => k * 2 ^ 40 }

end nano_pow_server

namespace nano_pow_server


/-! ## Bytes and words: lemmas -/

theorem le_bytes_to_u64_eq (src : List Nat) :
    le_bytes_to_u64 src =
      src.getD 0 0 % 256 + src.getD 1 0 % 256 * 256 + src.getD 2 0 % 256 * 256 ^ 2
      + src.getD 3 0 % 256 * 256 ^ 3 + src.getD 4 0 % 256 * 256 ^ 4
      + src.getD 5 0 % 256 * 256 ^ 5 + src.getD 6 0 % 256 * 256 ^ 6
      + src.getD 7 0 % 256 * 256 ^ 7 := by
  simp [le_bytes_to_u64, List.range_succ]

theorem le_bytes_to_u64_lt (src : List Nat) : le_bytes_to_u64 src < 2 ^ 64 := by
  rw [le_bytes_to_u64_eq]
  norm_num
  omega

theorem le_bytes_to_u64_to_le_bytes (value : Nat) (rest : List Nat) :
    le_bytes_to_u64 (u64_to_le_bytes value ++ rest) = value % 2 ^ 64 := by
  rw [le_bytes_to_u64_eq]
  simp [u64_to_le_bytes, List.range_succ]
  omega

/-! ## The search loop: lemmas -/

theorem and_mask_eq_mod (x : Nat) : x &&& 0xFFFFFFFFFFFFFFFF = x % 2 ^ 64 := by
  have h := Nat.and_pow_two_sub_one_eq_mod x 64
  norm_num at h
  exact h

theorem difficulty_threshold_eq (D : Nat) :
    difficulty_threshold D = max_64 / (D % 2 ^ 64) := by
  unfold difficulty_threshold
  simp only [and_mask_eq_mod]
  by_cases h : D % 2 ^ 64 > 0
  · rw [if_pos h]
  · have h0 : D % 2 ^ 64 = 0 := by omega
    rw [if_neg h, h0, Nat.div_zero]

theorem search_body_found (e : externals) (root_hash : List Nat) (threshold : Nat)
    (s : search_state) (h : (search_body e root_hash threshold s).found = true) :
    trial_hash_reversed e root_hash s.work_value < threshold ∧
      (search_body e root_hash threshold s).work_value = s.work_value := by
  unfold search_body at h ⊢
  by_cases hlt : trial_hash_reversed e root_hash s.work_value < threshold
  · simp [hlt]
  · simp only [hlt, if_false] at h
    split at h <;> simp at h

theorem search_body_work_value_lt (e : externals) (root_hash : List Nat) (threshold : Nat)
    (s : search_state) (h : s.work_value < 2 ^ 64) :
    (search_body e root_hash threshold s).work_value < 2 ^ 64 := by
  unfold search_body
  split
  · exact h
  · dsimp only
    split
    · exact Nat.mod_lt _ (by norm_num)
    · exact Nat.mod_lt _ (by norm_num)

theorem search_loop_found_passes (e : externals) (root_hash : List Nat) (threshold : Nat) :
    ∀ (fuel : Nat) (s : search_state),
      (s.found = true → trial_hash_reversed e root_hash s.work_value < threshold) →
      (search_loop e root_hash threshold fuel s).found = true →
      trial_hash_reversed e root_hash
        (search_loop e root_hash threshold fuel s).work_value < threshold := by
  intro fuel
  induction fuel with
  | zero => intro s hs hf; exact hs hf
  | succ n ih =>
    intro s hs hf
    unfold search_loop at hf ⊢
    by_cases hg : s.found = false ∧ s.iterations < max_iterations
    · rw [if_pos hg] at hf ⊢
      refine ih _ ?_ hf
      intro hb
      have hb2 := search_body_found e root_hash threshold s hb
      rw [hb2.2]
      exact hb2.1
    · rw [if_neg hg] at hf ⊢
      exact hs hf

theorem search_loop_work_value_lt (e : externals) (root_hash : List Nat) (threshold : Nat) :
    ∀ (fuel : Nat) (s : search_state), s.work_value < 2 ^ 64 →
      (search_loop e root_hash threshold fuel s).work_value < 2 ^ 64 := by
  intro fuel
  induction fuel with
  | zero => intro s hs; exact hs
  | succ n ih =>
    intro s hs
    unfold search_loop
    split
    · exact ih _ (search_body_work_value_lt e root_hash threshold s hs)
    · exact hs

theorem search_work_value_lt (e : externals) (root_hash : List Nat) (D : Nat) :
    (search e root_hash D).work_value < 2 ^ 64 := by
  unfold search
  apply search_loop_work_value_lt
  exact Nat.mod_lt _ (by norm_num)

theorem search_found_threshold (e : externals) (root_hash : List Nat) (D : Nat)
    (h : (search e root_hash D).found = true) :
    trial_hash_reversed e root_hash (search e root_hash D).work_value
      < difficulty_threshold D := by
  unfold search at h ⊢
  apply search_loop_found_passes _ _ _ _ _ _ h
  intro hf
  simp [search_init] at hf

theorem search_body_iterations (e : externals) (root_hash : List Nat) (threshold : Nat)
    (s : search_state) (h : s.iterations < max_iterations) :
    (search_body e root_hash threshold s).found = true ∨
      (search_body e root_hash threshold s).iterations = s.iterations + 1 := by
  have h64 : (s.iterations + 1) % 2 ^ 64 = s.iterations + 1 := by
    apply Nat.mod_eq_of_lt
    unfold max_iterations at h
    omega
  unfold search_body
  split
  · left; rfl
  · right
    dsimp only
    split <;> exact h64

/-- The fuel given to the loop is enough: with `max_iterations` unrollings
left for the trials still allowed, the loop is left because its guard is
false. -/
theorem search_loop_exits (e : externals) (root_hash : List Nat) (threshold : Nat) :
    ∀ (fuel : Nat) (s : search_state),
      (s.found = true ∨ max_iterations ≤ s.iterations + fuel) →
      (search_loop e root_hash threshold fuel s).found = true ∨
        max_iterations ≤ (search_loop e root_hash threshold fuel s).iterations := by
  intro fuel
  induction fuel with
  | zero =>
    intro s hs
    simpa [search_loop] using hs
  | succ n ih =>
    intro s hs
    unfold search_loop
    by_cases hg : s.found = false ∧ s.iterations < max_iterations
    · rw [if_pos hg]
      apply ih
      rcases search_body_iterations e root_hash threshold s hg.2 with hf | hi
      · left; exact hf
      · right; rw [hi]
        rcases hs with hs | hs
        · rw [hg.1] at hs; cases hs
        · omega
    · rw [if_neg hg]
      by_cases hf : s.found = true
      · left; exact hf
      · right
        have hff : s.found = false := by simpa using hf
        exact Nat.le_of_not_lt (fun h2 => hg ⟨hff, h2⟩)

theorem search_exits (e : externals) (root_hash : List Nat) (D : Nat) :
    (search e root_hash D).found = true ∨ max_iterations ≤ (search e root_hash D).iterations := by
  unfold search
  apply search_loop_exits
  right
  simp [search_init]

theorem work_nonce_store_work (work_value : Nat) (h : work_value < 2 ^ 64) :
    work_nonce (store_work work_value) = work_value := by
  unfold work_nonce store_work
  rw [le_bytes_to_u64_to_le_bytes]
  exact Nat.mod_eq_of_lt h

theorem generate_result_work (e : externals) (base_difficulty : Nat) (root_hash : List Nat)
    (D : Nat) :
    (generate_result e base_difficulty root_hash D).work
      = store_work (search e root_hash D).work_value := by
  unfold generate_result
  dsimp only
  split <;> rfl

theorem generate_result_nonce (e : externals) (base_difficulty : Nat) (root_hash : List Nat)
    (D : Nat) :
    work_nonce (generate_result e base_difficulty root_hash D).work
      = (search e root_hash D).work_value := by
  rw [generate_result_work]
  exact work_nonce_store_work _ (search_work_value_lt e root_hash D)

/-! ## Formatting: lemmas -/

set_option maxRecDepth 100000 in
theorem put_hex_byte_spec : ∀ b, b < 256 →
    (put_hex_byte b).length = 2 ∧ (∀ c ∈ put_hex_byte b, c ∈ upper_hex_chars) ∧
      read_base16 (String.mk (put_hex_byte b)) = b := by
  decide

theorem foldl_base16_acc (l : List Char) : ∀ acc : Nat,
    l.foldl (fun a c => a * 16 + hex_digit_value c) acc
      = acc * 16 ^ l.length + l.foldl (fun a c => a * 16 + hex_digit_value c) 0 := by
  induction l with
  | nil => intro acc; simp
  | cons c cs ih =>
    intro acc
    simp only [List.foldl_cons, List.length_cons]
    rw [ih (acc * 16 + hex_digit_value c), ih (0 * 16 + hex_digit_value c)]
    ring

theorem foldl_put_hex_byte (b acc : Nat) (hb : b < 256) :
    (put_hex_byte b).foldl (fun a c => a * 16 + hex_digit_value c) acc = acc * 256 + b := by
  obtain ⟨hlen, -, hval⟩ := put_hex_byte_spec b hb
  rw [foldl_base16_acc, hlen]
  unfold read_base16 at hval
  simp only at hval
  rw [hval]
  norm_num

theorem work_hex_data (work : List Nat) :
    (work_hex work).data =
      put_hex_byte (work.getD 7 0 % 256) ++ put_hex_byte (work.getD 6 0 % 256) ++
      put_hex_byte (work.getD 5 0 % 256) ++ put_hex_byte (work.getD 4 0 % 256) ++
      put_hex_byte (work.getD 3 0 % 256) ++ put_hex_byte (work.getD 2 0 % 256) ++
      put_hex_byte (work.getD 1 0 % 256) ++ put_hex_byte (work.getD 0 0 % 256) := by
  simp [work_hex, List.flatMap, List.append_assoc]

theorem work_hex_length (work : List Nat) : (work_hex work).length = 16 := by
  have h : ∀ i, (put_hex_byte (work.getD i 0 % 256)).length = 2 :=
    fun i => (put_hex_byte_spec _ (Nat.mod_lt _ (by norm_num))).1
  show (work_hex work).data.length = 16
  rw [work_hex_data]
  simp only [List.length_append, h]

theorem work_hex_chars (work : List Nat) : ∀ c ∈ (work_hex work).data, c ∈ upper_hex_chars := by
  have h : ∀ i, ∀ c ∈ put_hex_byte (work.getD i 0 % 256), c ∈ upper_hex_chars :=
    fun i => (put_hex_byte_spec _ (Nat.mod_lt _ (by norm_num))).2.1
  intro c hc
  rw [work_hex_data] at hc
  simp only [List.mem_append] at hc
  rcases hc with ((((((hc | hc) | hc) | hc) | hc) | hc) | hc) | hc <;> exact h _ c hc

theorem read_base16_work_hex (work : List Nat) :
    read_base16 (work_hex work) = le_bytes_to_u64 work := by
  have hb : ∀ i, work.getD i 0 % 256 < 256 := fun i => Nat.mod_lt _ (by norm_num)
  unfold read_base16
  rw [work_hex_data, le_bytes_to_u64_eq]
  simp only [List.foldl_append, foldl_put_hex_byte _ _ (hb _)]
  ring

/-! ## The claims on the search and its result -/

/-- C1: if the search loop of work_generate ends with `found = true`, the nonce
held in the low eight bytes of `result.work` passes the proof-of-work test: the
first eight digest bytes of `[nonce little-endian ‖ root_hash]`, read
little-endian and byte-reversed, are strictly below
`(2^64 - 1) / (D mod 2^64)`. This holds for every root hash, requested
difficulty, sequence of draws and digest function. -/
theorem found_nonce_passes_pow_test (e : externals) (base_difficulty : Nat)
    (root_hash : List Nat) (D : Nat) (h : (search e root_hash D).found = true) :
    hash_reversed (le_bytes_to_u64 (e.digest
        (u64_to_le_bytes (work_nonce (generate_result e base_difficulty root_hash D).work)
          ++ root_hash)))
      < (2 ^ 64 - 1) / (D % 2 ^ 64) := by
  rw [generate_result_nonce]
  have h1 := search_found_threshold e root_hash D h
  rw [difficulty_threshold_eq] at h1
  exact h1

theorem found_nonce_passes_pow_test_witness :
    (search zero_digest_env (List.replicate 32 0) 1).found = true ∧
    hash_reversed (le_bytes_to_u64 (zero_digest_env.digest
        (u64_to_le_bytes (work_nonce
          (generate_result zero_digest_env 0x2000000000000000 (List.replicate 32 0) 1).work)
          ++ List.replicate 32 0)))
      < (2 ^ 64 - 1) / (1 % 2 ^ 64) :=
  ⟨by decide, found_nonce_passes_pow_test zero_digest_env 0x2000000000000000
    (List.replicate 32 0) 1 (by decide)⟩

/-- C3: the threshold of the search depends on the requested difficulty `D`
only through `d64 = D mod 2^64`: it is 0 when `d64 = 0` and
`(2^64 - 1) / d64` otherwise, so a difficulty with the same low 64 bits gives
the same threshold. -/
theorem threshold_from_low_64_bits (D D2 : Nat) (h : D2 % 2 ^ 64 = D % 2 ^ 64) :
    difficulty_threshold D = (if D % 2 ^ 64 = 0 then 0 else (2 ^ 64 - 1) / (D % 2 ^ 64)) ∧
      difficulty_threshold D2 = difficulty_threshold D := by
  constructor
  · rw [difficulty_threshold_eq]
    split
    · next h0 => rw [h0, Nat.div_zero]
    · rfl
  · rw [difficulty_threshold_eq, difficulty_threshold_eq, h]

theorem threshold_from_low_64_bits_witness :
    (2 ^ 64 + 5) % 2 ^ 64 = 5 % 2 ^ 64 ∧
    (difficulty_threshold 5 = (if 5 % 2 ^ 64 = 0 then 0 else (2 ^ 64 - 1) / (5 % 2 ^ 64)) ∧
      difficulty_threshold (2 ^ 64 + 5) = difficulty_threshold 5) :=
  ⟨by decide, threshold_from_low_64_bits 5 (2 ^ 64 + 5) (by decide)⟩

theorem found_result_difficulty_aux (e : externals) (base_difficulty : Nat)
    (root_hash : List Nat) (D : Nat) (h : (search e root_hash D).found = true) :
    (generate_result e base_difficulty root_hash D).difficulty
      = (if trial_hash_reversed e root_hash (search e root_hash D).work_value = 0
          then 2 ^ 64 - 1
          else (2 ^ 64 - 1) / trial_hash_reversed e root_hash (search e root_hash D).work_value) := by
  have hd : (generate_result e base_difficulty root_hash D).difficulty
      = actual_difficulty (trial_hash_reversed e root_hash (search e root_hash D).work_value) := by
    unfold generate_result
    dsimp only
    rw [if_pos h]
  rw [hd]
  generalize trial_hash_reversed e root_hash (search e root_hash D).work_value = x
  have hlt : actual_diff_64 x < 2 ^ 64 := by
    unfold actual_diff_64 max_64
    split
    · exact Nat.lt_of_le_of_lt (Nat.div_le_self _ _) (by norm_num)
    · norm_num
  unfold actual_difficulty
  rw [Nat.mod_eq_of_lt (Nat.lt_trans hlt (by norm_num))]
  unfold actual_diff_64 max_64
  by_cases hx : x = 0
  · simp [hx]
  · rw [if_pos (Nat.pos_of_ne_zero hx), if_neg hx]
    norm_num

/-- C4, amended: for every successful search, `result.difficulty` is
`2^64 - 1` when the byte-reversed first eight digest bytes `hash_rev`
recomputed for the returned nonce are zero, and `(2^64 - 1) / hash_rev`
otherwise; in both cases the value fits in the low 64 bits and the upper 64
bits are zero. -/
theorem found_result_difficulty (e : externals) (base_difficulty : Nat)
    (root_hash : List Nat) (D : Nat) (h : (search e root_hash D).found = true) :
    (generate_result e base_difficulty root_hash D).difficulty
        = (if trial_hash_reversed e root_hash
              (work_nonce (generate_result e base_difficulty root_hash D).work) = 0
            then 2 ^ 64 - 1
            else (2 ^ 64 - 1) / trial_hash_reversed e root_hash
              (work_nonce (generate_result e base_difficulty root_hash D).work)) ∧
      (generate_result e base_difficulty root_hash D).difficulty < 2 ^ 64 ∧
      (generate_result e base_difficulty root_hash D).difficulty / 2 ^ 64 = 0 := by
  rw [generate_result_nonce]
  have hd : (generate_result e base_difficulty root_hash D).difficulty
      = actual_difficulty (trial_hash_reversed e root_hash (search e root_hash D).work_value) := by
    unfold generate_result
    dsimp only
    rw [if_pos h]
  have hlt : ∀ x, actual_diff_64 x < 2 ^ 64 := by
    intro x
    unfold actual_diff_64 max_64
    split
    · exact Nat.lt_of_le_of_lt (Nat.div_le_self _ _) (by norm_num)
    · norm_num
  have hval : ∀ x, actual_difficulty x = if x = 0 then 2 ^ 64 - 1 else (2 ^ 64 - 1) / x := by
    intro x
    unfold actual_difficulty
    rw [Nat.mod_eq_of_lt (Nat.lt_trans (hlt x) (by norm_num))]
    unfold actual_diff_64 max_64
    by_cases hx : x = 0
    · simp [hx]
    · rw [if_pos (Nat.pos_of_ne_zero hx), if_neg hx]
      norm_num
  have hlt2 : ∀ x, actual_difficulty x < 2 ^ 64 := by
    intro x
    unfold actual_difficulty
    rw [Nat.mod_eq_of_lt (Nat.lt_trans (hlt x) (by norm_num))]
    exact hlt x
  rw [hd]
  exact ⟨hval _, hlt2 _, Nat.div_eq_of_lt (hlt2 _)⟩

theorem found_result_difficulty_witness :
    (search zero_digest_env (List.replicate 32 0) 4).found = true ∧
    ((generate_result zero_digest_env 4 (List.replicate 32 0) 4).difficulty
        = (if trial_hash_reversed zero_digest_env (List.replicate 32 0)
              (work_nonce (generate_result zero_digest_env 4 (List.replicate 32 0) 4).work) = 0
            then 2 ^ 64 - 1
            else (2 ^ 64 - 1) / trial_hash_reversed zero_digest_env (List.replicate 32 0)
              (work_nonce (generate_result zero_digest_env 4 (List.replicate 32 0) 4).work)) ∧
      (generate_result zero_digest_env 4 (List.replicate 32 0) 4).difficulty < 2 ^ 64 ∧
      (generate_result zero_digest_env 4 (List.replicate 32 0) 4).difficulty / 2 ^ 64 = 0) :=
  ⟨by decide, found_result_difficulty zero_digest_env 4 (List.replicate 32 0) 4 (by decide)⟩

/-- C4 as stated fails: with a digest whose first eight bytes are zero the
search succeeds at its first trial with `hash_rev = 0`; the code then stores
`2^64 - 1`, while `hash_rev = 0` has no quotient `(2^64 - 1) / hash_rev` (no
`q` with `q * hash_rev ≤ 2^64 - 1 < (q + 1) * hash_rev`), and the value differs
from the quotient as Lean totalises it. -/
theorem found_result_difficulty_counterexample :
    (search zero_digest_env (List.replicate 32 0) 1).found = true ∧
    trial_hash_reversed zero_digest_env (List.replicate 32 0)
      (work_nonce (generate_result zero_digest_env 1 (List.replicate 32 0) 1).work) = 0 ∧
    (generate_result zero_digest_env 1 (List.replicate 32 0) 1).difficulty = 2 ^ 64 - 1 ∧
    (generate_result zero_digest_env 1 (List.replicate 32 0) 1).difficulty
      ≠ (2 ^ 64 - 1) / trial_hash_reversed zero_digest_env (List.replicate 32 0)
        (work_nonce (generate_result zero_digest_env 1 (List.replicate 32 0) 1).work) ∧
    ¬ ∃ q : Nat,
      q * trial_hash_reversed zero_digest_env (List.replicate 32 0)
        (work_nonce (generate_result zero_digest_env 1 (List.replicate 32 0) 1).work)
          ≤ 2 ^ 64 - 1 ∧
      2 ^ 64 - 1 < (q + 1) * trial_hash_reversed zero_digest_env (List.replicate 32 0)
        (work_nonce (generate_result zero_digest_env 1 (List.replicate 32 0) 1).work) := by
  have h0 : trial_hash_reversed zero_digest_env (List.replicate 32 0)
      (work_nonce (generate_result zero_digest_env 1 (List.replicate 32 0) 1).work) = 0 := by
    decide
  refine ⟨by decide, h0, by decide, by decide, ?_⟩
  rintro ⟨q, -, h2⟩
  rw [h0] at h2
  simp at h2

/-- C5: on every non-mock generate response (search found or exhausted) the
`work` field is a string of exactly 16 characters, each in `0-9` or `A-F`,
and read as a base-16 number it is the 64-bit nonce `work_value` that the
search left in the low eight bytes of `result.work`. -/
theorem generate_response_work_field (e : externals) (base_difficulty : Nat)
    (root_hash : List Nat) (D : Nat) (correlation_id : Option String) :
    ∃ work : String,
      response.field (generate_response e (generate_result e base_difficulty root_hash D)
        false correlation_id) "work" = some (field_value.str work) ∧
      work.length = 16 ∧
      (∀ c ∈ work.data, c ∈ upper_hex_chars) ∧
      read_base16 work = work_nonce (generate_result e base_difficulty root_hash D).work ∧
      read_base16 work = (search e root_hash D).work_value := by
  refine ⟨work_hex (generate_result e base_difficulty root_hash D).work, ?_,
    work_hex_length _, work_hex_chars _, read_base16_work_hex _, ?_⟩
  · cases correlation_id <;> rfl
  · rw [read_base16_work_hex]
    exact generate_result_nonce e base_difficulty root_hash D

/-! ## The queue: lemmas -/

theorem queue_push_length (j : job) (jobs : List job) :
    (queue_push j jobs).length = jobs.length + 1 := by
  induction jobs with
  | nil => rfl
  | cons x xs ih =>
    unfold queue_push
    split
    · rfl
    · simp [ih]

theorem queue_push_perm (j : job) (jobs : List job) :
    List.Perm (queue_push j jobs) (j :: jobs) := by
  induction jobs with
  | nil => exact List.Perm.refl _
  | cons x xs ih =>
    unfold queue_push
    split
    · exact List.Perm.refl _
    · exact (List.Perm.cons x ih).trans (List.Perm.swap j x xs)

theorem queue_request_jobs_le (cfg : config) (st : work_handler) (job_l : job)
    (correlation_id : Option String) (h : st.jobs.length ≤ cfg.request_limit) :
    (queue_request cfg st job_l correlation_id).1.jobs.length ≤ cfg.request_limit := by
  unfold queue_request
  split
  · simp only [queue_push_length]
    omega
  · exact h

theorem handle_work_generate_jobs_le (e : externals) (cfg : config) (st : work_handler)
    (request : ptree_request) (h : st.jobs.length ≤ cfg.request_limit) :
    (handle_work_generate e cfg st request).1.jobs.length ≤ cfg.request_limit := by
  unfold handle_work_generate
  dsimp only
  split
  · exact h
  · split
    · exact h
    · split
      · exact h
      · split
        · exact h
        · exact queue_request_jobs_le _ _ _ _ h

theorem handle_work_validate_state (e : externals) (cfg : config) (st : work_handler)
    (request : ptree_request) : (handle_work_validate e cfg st request).1 = st := by
  unfold handle_work_validate
  dsimp only
  repeat' split
  all_goals rfl

theorem remove_job_jobs_le (st : work_handler) (hash : List Nat) :
    (remove_job st hash).1.jobs.length ≤ st.jobs.length := by
  unfold remove_job
  split
  · exact List.length_eraseP_le _
  · exact Nat.le_refl _

theorem handle_work_cancel_jobs_le (e : externals) (st : work_handler)
    (request : ptree_request) :
    (handle_work_cancel e st request).1.jobs.length ≤ st.jobs.length := by
  unfold handle_work_cancel
  dsimp only
  split
  · exact Nat.le_refl _
  · split
    · exact Nat.le_refl _
    · split <;> exact remove_job_jobs_le st _

theorem step_jobs_le (e : externals) (cfg : config) (st : work_handler) (ev : event)
    (h : st.jobs.length ≤ cfg.request_limit) :
    (step e cfg st ev).1.jobs.length ≤ cfg.request_limit := by
  cases ev with
  | request r =>
    show (handle_request_async e cfg st r).1.jobs.length ≤ cfg.request_limit
    unfold handle_request_async
    split
    · exact handle_work_generate_jobs_le e cfg st r h
    · split
      · rw [handle_work_validate_state]; exact h
      · split
        · exact Nat.le_trans (handle_work_cancel_jobs_le e st r) h
        · exact h
  | queue_delete =>
    show (handle_queue_delete_request cfg st).1.jobs.length ≤ cfg.request_limit
    unfold handle_queue_delete_request
    split
    · exact Nat.zero_le _
    · exact h
  | worker_pop k =>
    show (worker_pop st k).1.jobs.length ≤ cfg.request_limit
    unfold worker_pop
    split
    · exact h
    · dsimp only
      split
      · next hj =>
        have hlen : st.jobs.length = _ := congrArg List.length hj
        simp only [List.length_cons] at hlen
        dsimp only
        omega
      · exact h
  | worker_activate k device =>
    show (worker_activate st k device).1.jobs.length ≤ cfg.request_limit
    unfold worker_activate
    split
    · exact h
    · dsimp only
      split <;> exact h
  | worker_complete k =>
    show (worker_complete e cfg st k).1.jobs.length ≤ cfg.request_limit
    unfold worker_complete
    split
    · exact h
    · dsimp only
      split <;> exact h

/-! ## The claims on the handler and the queue -/

theorem no_trial_below_zero_threshold (e : externals) (root_hash : List Nat) (D : Nat)
    (h : D % 2 ^ 64 = 0) (work_value : Nat) :
    ¬ trial_hash_reversed e root_hash work_value < difficulty_threshold D := by
  rw [difficulty_threshold_eq, h, Nat.div_zero]
  exact Nat.not_lt_zero _

/-- C2 fails on the code: the `work_validate` branch sets `passes` to true
without hashing. For the all-zero hash and work and a difficulty whose low 64
bits are zero the response carries `valid = "1"`, although the threshold
derived from that difficulty is 0 and no work is below it, whatever the digest
function is. -/
theorem work_validate_reports_valid_for_failing_work (e : externals) (cfg : config)
    (st : work_handler) :
    (handle_request_async (with_spec_codecs e) cfg st validate_zero_difficulty_request).2
        = some [("valid", field_value.str "1"),
                ("difficulty", field_value.str "0x2000000000000000"),
                ("multiplier", field_value.str "1.0")] ∧
      (with_spec_codecs e).u256_from_hex
          "0000000000000000000000000000000000000000000000000000000000000000"
        = .ok (List.replicate 32 0) ∧
      requested_difficulty (with_spec_codecs e) cfg validate_zero_difficulty_request = .ok 0 ∧
      ∀ work_value : Nat,
        ¬ trial_hash_reversed e (List.replicate 32 0) work_value < difficulty_threshold 0 := by
  refine ⟨?_, ?_, ?_, fun w => no_trial_below_zero_threshold e _ 0 (by norm_num) w⟩
  · rfl
  · rfl
  · rfl

/-- C6: a submit is answered with the error "Work request limit exceeded"
exactly when the queue already holds at least `request_limit` jobs; a rejected
submit leaves the handler state (the queued jobs and the posted tasks) as it
was, and an accepted submit gives no immediate response, adds exactly the new
job to the queued jobs and posts exactly one worker task. -/
theorem submit_rejected_iff_queue_full (cfg : config) (st : work_handler) (job_l : job)
    (correlation_id : Option String) :
    ((queue_request cfg st job_l correlation_id).2
        = some (create_error_response correlation_id "Work request limit exceeded")
      ↔ cfg.request_limit ≤ st.jobs.length) ∧
    (cfg.request_limit ≤ st.jobs.length →
      (queue_request cfg st job_l correlation_id).1 = st) ∧
    (st.jobs.length < cfg.request_limit →
      (queue_request cfg st job_l correlation_id).2 = none ∧
      List.Perm (queue_request cfg st job_l correlation_id).1.jobs (job_l :: st.jobs) ∧
      (queue_request cfg st job_l correlation_id).1.jobs.length = st.jobs.length + 1 ∧
      (queue_request cfg st job_l correlation_id).1.posted = st.posted ++ [correlation_id]) := by
  by_cases h : st.jobs.length < cfg.request_limit
  · have hq : queue_request cfg st job_l correlation_id
        = ({ st with jobs := queue_push job_l st.jobs,
                     posted := st.posted ++ [correlation_id] }, none) := by
      unfold queue_request
      rw [if_pos h]
    rw [hq]
    refine ⟨⟨fun hc => ?_, fun hc => ?_⟩, fun hc => ?_, fun _ => ?_⟩
    · cases hc
    · omega
    · omega
    · exact ⟨rfl, queue_push_perm _ _, queue_push_length _ _, rfl⟩
  · have hq : queue_request cfg st job_l correlation_id
        = (st, some (create_error_response correlation_id "Work request limit exceeded")) := by
      unfold queue_request
      rw [if_neg h]
    rw [hq]
    refine ⟨⟨fun _ => ?_, fun _ => rfl⟩, fun _ => rfl, fun hc => absurd hc h⟩
    omega

/-- C7: starting from an empty queue, after any sequence of requests
(submit, validate, cancel), purges and worker steps the number of queued jobs
is at most `server.request_limit`. -/
theorem queued_jobs_within_limit (e : externals) (cfg : config) (st : work_handler)
    (events : List event) (h : st.jobs = []) :
    (run e cfg st events).jobs.length ≤ cfg.request_limit := by
  have key : ∀ (evs : List event) (s : work_handler),
      s.jobs.length ≤ cfg.request_limit → (run e cfg s evs).jobs.length ≤ cfg.request_limit := by
    intro evs
    induction evs with
    | nil => intro s hs; exact hs
    | cons ev rest ih =>
      intro s hs
      exact ih _ (step_jobs_le e cfg s ev hs)
  apply key
  rw [h]
  exact Nat.zero_le _

theorem queued_jobs_within_limit_witness :
    work_handler.init.jobs = [] ∧
    (run (with_spec_codecs zero_digest_env) sample_config work_handler.init
      [event.request (generate_request_with_difficulty none),
       event.request (generate_request_with_difficulty none),
       event.request (generate_request_with_difficulty none),
       event.worker_pop 0,
       event.request (generate_request_with_difficulty none),
       event.queue_delete]).jobs.length ≤ sample_config.request_limit :=
  ⟨rfl, queued_jobs_within_limit (with_spec_codecs zero_digest_env) sample_config
    work_handler.init _ rfl⟩

/-- C8: a work_generate request fails with "No work device has been
configured" when no device is configured, whatever its other fields are (also
when `hash` is absent), and with "work_generate failed: missing hash value"
when devices are configured and `hash` is absent; in both cases the queued
jobs and the posted worker tasks are unchanged. -/
theorem work_generate_no_device_or_missing_hash (e : externals) (cfg : config)
    (st : work_handler) (request : ptree_request)
    (haction : request.action = some "work_generate")
    (h : cfg.devices = 0 ∨ request.hash = none) :
    (handle_request_async e cfg st request).2
        = some (create_error_response request.id
            (if cfg.devices = 0 then "No work device has been configured"
             else "work_generate failed: missing hash value")) ∧
      (handle_request_async e cfg st request).1.jobs = st.jobs ∧
      (handle_request_async e cfg st request).1.posted = st.posted := by
  unfold handle_request_async
  rw [if_pos haction]
  unfold handle_work_generate
  dsimp only
  by_cases hd : cfg.devices = 0
  · rw [if_pos hd, if_pos hd]
    exact ⟨rfl, rfl, rfl⟩
  · rw [if_neg hd, if_neg hd]
    have hh : request.hash = none := h.resolve_left hd
    rw [hh]
    exact ⟨rfl, rfl, rfl⟩

theorem work_generate_no_device_or_missing_hash_witness :
    ((handle_request_async zero_digest_env { sample_config with devices := 0 }
        work_handler.init { action := some "work_generate", id := some "7" }).2
        = some [("error", field_value.str "No work device has been configured"),
                ("id", field_value.str "7")]) ∧
    ((handle_request_async zero_digest_env sample_config
        work_handler.init { action := some "work_generate" }).2
        = some [("error", field_value.str "work_generate failed: missing hash value")]) :=
  ⟨(work_generate_no_device_or_missing_hash zero_digest_env { sample_config with devices := 0 }
      work_handler.init { action := some "work_generate", id := some "7" } rfl
      (Or.inl rfl)).1,
   (work_generate_no_device_or_missing_hash zero_digest_env sample_config
      work_handler.init { action := some "work_generate" } rfl (Or.inr rfl)).1⟩

/-- C10: `handle_queue_delete_request` with `allow_control = false` answers
with an error and leaves the whole handler state (queued, active and completed
jobs included) unchanged; with `allow_control = true` it answers
`success = true`, the queue is empty afterwards, and the active and completed
collections are unchanged. -/
theorem queue_delete_effect (cfg : config) (st : work_handler) :
    handle_queue_delete_request { cfg with allow_control := false } st
        = (st, [("error", field_value.str
            "Control requests are not allowed. This must be enabled in the server configuration.")]) ∧
      (handle_queue_delete_request { cfg with allow_control := true } st).2
        = [("success", field_value.bool true)] ∧
      (handle_queue_delete_request { cfg with allow_control := true } st).1.jobs = [] ∧
      (handle_queue_delete_request { cfg with allow_control := true } st).1.active_jobs
        = st.active_jobs ∧
      (handle_queue_delete_request { cfg with allow_control := true } st).1.completed_jobs
        = st.completed_jobs :=
  ⟨rfl, rfl, rfl, rfl, rfl⟩

/-! ## Difficulty normalisation -/

theorem requested_difficulty_of_pos (e : externals) (cfg : config) (request : ptree_request)
    (hm : 0 < request.multiplier.getD 0)
    (hparse : ∀ hex, request.difficulty = some hex → ∃ d, e.u128_from_hex hex = .ok d) :
    requested_difficulty e cfg request
      = .ok (e.from_multiplier (request.multiplier.getD 0) cfg.base_difficulty) := by
  unfold requested_difficulty
  cases hd : request.difficulty with
  | none =>
    dsimp only
    rw [if_pos hm]
  | some hex =>
    obtain ⟨d, hdv⟩ := hparse hex hd
    dsimp only
    rw [hdv]
    dsimp only
    rw [if_pos hm]

theorem requested_difficulty_ok (e : externals) (cfg : config) (request : ptree_request)
    (d : Nat) (h : requested_difficulty e cfg request = .ok d) :
    (0 < request.multiplier.getD 0 →
      d = e.from_multiplier (request.multiplier.getD 0) cfg.base_difficulty) ∧
    (¬ 0 < request.multiplier.getD 0 → request.difficulty = none → d = cfg.base_difficulty) ∧
    (¬ 0 < request.multiplier.getD 0 → ∀ hex, request.difficulty = some hex →
      e.u128_from_hex hex = .ok d) := by
  unfold requested_difficulty at h
  cases hd : request.difficulty with
  | none =>
    rw [hd] at h
    dsimp only at h
    by_cases hm : 0 < request.multiplier.getD 0
    · rw [if_pos hm] at h
      cases h
      exact ⟨fun _ => rfl, fun hn => absurd hm hn, fun hn => absurd hm hn⟩
    · rw [if_neg hm] at h
      cases h
      refine ⟨fun hp => absurd hp hm, fun _ _ => rfl, ?_⟩
      intro _ hex hx
      cases hx
  | some hex =>
    rw [hd] at h
    dsimp only at h
    cases hv : e.u128_from_hex hex with
    | error what =>
      rw [hv] at h
      cases h
    | ok v =>
      rw [hv] at h
      dsimp only at h
      by_cases hm : 0 < request.multiplier.getD 0
      · rw [if_pos hm] at h
        cases h
        exact ⟨fun _ => rfl, fun hn => absurd hm hn, fun hn => absurd hm hn⟩
      · rw [if_neg hm] at h
        cases h
        refine ⟨fun hp => absurd hp hm, ?_, ?_⟩
        · intro _ hx
          cases hx
        · intro _ hex2 hx
          cases hx
          exact hv

theorem handle_work_generate_accepted (e : externals) (cfg : config) (st : work_handler)
    (request : ptree_request) (h : (handle_work_generate e cfg st request).2 = none) :
    ∃ j d, requested_difficulty e cfg request = .ok d ∧ j.request.difficulty = d ∧
      (handle_work_generate e cfg st request).1.jobs = queue_push j st.jobs := by
  by_cases hdev : cfg.devices = 0
  · simp [handle_work_generate, hdev] at h
  · cases hh : request.hash with
    | none => simp [handle_work_generate, hdev, hh] at h
    | some root =>
      cases hp : e.u256_from_hex root with
      | error what => simp [handle_work_generate, hdev, hh, hp] at h
      | ok hash =>
        cases hd : requested_difficulty e cfg request with
        | error what => simp [handle_work_generate, hdev, hh, hp, hd] at h
        | ok d =>
          by_cases hlt : st.jobs.length < cfg.request_limit
          · by_cases hpri : cfg.allow_prioritization = true
            · refine ⟨{ job.new st.job_id_dispenser with
                  priority := request.priority.getD 0
                  request := { root_hash := hash, difficulty := d, multiplier := 0 } }, d,
                rfl, rfl, ?_⟩
              simp [handle_work_generate, queue_request, hdev, hh, hp, hd, hlt, hpri, job.new]
            · refine ⟨{ job.new st.job_id_dispenser with
                  request := { root_hash := hash, difficulty := d, multiplier := 0 } }, d,
                rfl, rfl, ?_⟩
              simp [handle_work_generate, queue_request, hdev, hh, hp, hd, hlt, hpri, job.new]
          · simp [handle_work_generate, queue_request, hdev, hh, hp, hd, hlt] at h

theorem work_generate_difficulty_rejected (e : externals) (cfg : config) (st : work_handler)
    (request : ptree_request) (root hex what : String) (hash : List Nat)
    (hdev : cfg.devices ≠ 0) (hroot : request.hash = some root)
    (hhash : e.u256_from_hex root = .ok hash) (hd : request.difficulty = some hex)
    (hrej : e.u128_from_hex hex = .error what) :
    (handle_work_generate e cfg st request).2 = some (create_error_response request.id what) ∧
      (handle_work_generate e cfg st request).1.jobs = st.jobs ∧
      (handle_work_generate e cfg st request).1.posted = st.posted := by
  have hreq : requested_difficulty e cfg request = .error what := by
    unfold requested_difficulty
    rw [hd]
    dsimp only
    rw [hrej]
  unfold handle_work_generate
  rw [if_neg hdev]
  dsimp only
  rw [hroot]
  dsimp only
  rw [hhash]
  dsimp only
  rw [hreq]
  exact ⟨rfl, rfl, rfl⟩

/-- C9, amended: for a work_generate request, (1) with a multiplier `m > 0` a
request that differs only in its `difficulty` field is handled identically,
provided both `difficulty` fields are accepted by the hex parser or absent;
(2) the job of an accepted request has
`request.difficulty = from_multiplier (m, base_difficulty)` when `m > 0`, and
when `m` is absent or not positive it has the supplied difficulty if the field
is present and `base_difficulty` otherwise; (3) a `difficulty` field that the
hex parser rejects fails the request with the parser's error, whatever the
multiplier is, and nothing is queued or posted: the field is parsed before the
multiplier is looked at. -/
theorem work_generate_difficulty (e : externals) (cfg : config) (st : work_handler)
    (request : ptree_request) (difficulty2 : Option String)
    (haction : request.action = some "work_generate") :
    ((∀ hex, (request.difficulty = some hex ∨ difficulty2 = some hex) →
        ∃ d, e.u128_from_hex hex = .ok d) →
      0 < request.multiplier.getD 0 →
      handle_request_async e cfg st { request with difficulty := difficulty2 }
        = handle_request_async e cfg st request) ∧
    ((handle_request_async e cfg st request).2 = none →
      ∃ j, (handle_request_async e cfg st request).1.jobs = queue_push j st.jobs ∧
        (0 < request.multiplier.getD 0 → j.request.difficulty
          = e.from_multiplier (request.multiplier.getD 0) cfg.base_difficulty) ∧
        (¬ 0 < request.multiplier.getD 0 → request.difficulty = none →
          j.request.difficulty = cfg.base_difficulty) ∧
        (¬ 0 < request.multiplier.getD 0 → ∀ hex, request.difficulty = some hex →
          e.u128_from_hex hex = .ok j.request.difficulty)) ∧
    (∀ (root hex what : String) (hash : List Nat), cfg.devices ≠ 0 →
      request.hash = some root → e.u256_from_hex root = .ok hash →
      request.difficulty = some hex → e.u128_from_hex hex = .error what →
      (handle_request_async e cfg st request).2
          = some (create_error_response request.id what) ∧
        (handle_request_async e cfg st request).1.jobs = st.jobs ∧
        (handle_request_async e cfg st request).1.posted = st.posted) := by
  refine ⟨?_, ?_, ?_⟩
  · intro hparse hm
    have h1 := requested_difficulty_of_pos e cfg request hm
      (fun hex hx => hparse hex (Or.inl hx))
    have h2 := requested_difficulty_of_pos e cfg { request with difficulty := difficulty2 } hm
      (fun hex hx => hparse hex (Or.inr hx))
    unfold handle_request_async
    rw [if_pos haction, if_pos haction]
    unfold handle_work_generate
    rw [h1, h2]
  · intro hacc
    unfold handle_request_async at hacc ⊢
    rw [if_pos haction] at hacc ⊢
    obtain ⟨j, d, hd, hjd, hjobs⟩ := handle_work_generate_accepted e cfg st request hacc
    refine ⟨j, hjobs, ?_⟩
    rw [hjd]
    exact requested_difficulty_ok e cfg request d hd
  · intro root hex what hash hdev hroot hhash hd hrej
    unfold handle_request_async
    rw [if_pos haction]
    exact work_generate_difficulty_rejected e cfg st request root hex what hash hdev hroot
      hhash hd hrej

theorem work_generate_difficulty_witness :
    (handle_request_async (with_spec_codecs zero_digest_env) sample_config work_handler.init
        { generate_request_with_difficulty (some "1") with difficulty := some "0xFFFF" }
      = handle_request_async (with_spec_codecs zero_digest_env) sample_config
          work_handler.init (generate_request_with_difficulty (some "1"))) ∧
    (∃ j, (handle_request_async (with_spec_codecs zero_digest_env) sample_config
          work_handler.init (generate_request_with_difficulty (some "1"))).1.jobs
            = queue_push j work_handler.init.jobs ∧
        j.request.difficulty = (with_spec_codecs zero_digest_env).from_multiplier 2
          sample_config.base_difficulty) ∧
    ((handle_request_async (with_spec_codecs zero_digest_env) sample_config work_handler.init
          (generate_request_with_difficulty (some "zz"))).2
        = some (create_error_response none "InvalidHex") ∧
      (handle_request_async (with_spec_codecs zero_digest_env) sample_config work_handler.init
          (generate_request_with_difficulty (some "zz"))).1.jobs = [] ∧
      (handle_request_async (with_spec_codecs zero_digest_env) sample_config work_handler.init
          (generate_request_with_difficulty (some "zz"))).1.posted = []) := by
  refine ⟨?_, ?_, ?_⟩
  · refine (work_generate_difficulty (with_spec_codecs zero_digest_env) sample_config
      work_handler.init (generate_request_with_difficulty (some "1")) (some "0xFFFF") rfl).1
      ?_ (by decide)
    intro hex hx
    rcases hx with hx | hx
    · cases hx
      exact ⟨1, rfl⟩
    · cases hx
      exact ⟨0xFFFF, rfl⟩
  · obtain ⟨j, hj, hm, -, -⟩ := (work_generate_difficulty (with_spec_codecs zero_digest_env)
      sample_config work_handler.init (generate_request_with_difficulty (some "1")) none
      rfl).2.1 rfl
    exact ⟨j, hj, hm (by decide)⟩
  · exact (work_generate_difficulty (with_spec_codecs zero_digest_env) sample_config
      work_handler.init (generate_request_with_difficulty (some "zz")) none rfl).2.2
      "0000000000000000000000000000000000000000000000000000000000000000" "zz" "InvalidHex"
      (spec_be_bytes 32 0) (by decide) rfl rfl rfl rfl

/-- C9 as stated fails: two work_generate requests with multiplier 2 that
differ only in their `difficulty` field are not handled identically when one of
the fields is not hexadecimal. With the hex parser of the specification the
request with `difficulty = "zz"` is answered with an error and queues nothing,
the request with `difficulty = "1"` queues a job and posts a worker task. -/
theorem work_generate_difficulty_counterexample :
    generate_request_with_difficulty (some "1")
      = { generate_request_with_difficulty (some "zz") with difficulty := some "1" } ∧
    0 < (generate_request_with_difficulty (some "zz")).multiplier.getD 0 ∧
    (handle_request_async (with_spec_codecs zero_digest_env) sample_config work_handler.init
      (generate_request_with_difficulty (some "zz"))).2
        = some [("error", field_value.str "InvalidHex")] ∧
    (handle_request_async (with_spec_codecs zero_digest_env) sample_config work_handler.init
      (generate_request_with_difficulty (some "zz"))).1.jobs = [] ∧
    (handle_request_async (with_spec_codecs zero_digest_env) sample_config work_handler.init
      (generate_request_with_difficulty (some "1"))).2 = none ∧
    (handle_request_async (with_spec_codecs zero_digest_env) sample_config work_handler.init
      (generate_request_with_difficulty (some "1"))).1.jobs.length = 1 ∧
    (handle_request_async (with_spec_codecs zero_digest_env) sample_config work_handler.init
      (generate_request_with_difficulty (some "1"))).1.posted = [none] := by
  refine ⟨rfl, by decide, ?_, ?_, ?_, ?_, ?_⟩ <;> rfl

/-! ## Exhausted and successful searches -/

theorem search_body_not_found (e : externals) (root_hash : List Nat) (threshold : Nat)
    (s : search_state)
    (h : ¬ trial_hash_reversed e root_hash s.work_value < threshold)
    (hi : s.iterations < max_iterations) :
    (search_body e root_hash threshold s).found = false ∧
      (search_body e root_hash threshold s).iterations = s.iterations + 1 := by
  have h64 : (s.iterations + 1) % 2 ^ 64 = s.iterations + 1 := by
    apply Nat.mod_eq_of_lt
    unfold max_iterations at hi
    omega
  unfold search_body
  rw [if_neg h]
  dsimp only
  split <;> exact ⟨rfl, h64⟩

theorem search_loop_never_accepting (e : externals) (root_hash : List Nat) (threshold : Nat)
    (hthr : ∀ w, ¬ trial_hash_reversed e root_hash w < threshold) :
    ∀ (fuel : Nat) (s : search_state), s.found = false → s.iterations ≤ max_iterations →
      max_iterations ≤ s.iterations + fuel →
      (search_loop e root_hash threshold fuel s).found = false ∧
        (search_loop e root_hash threshold fuel s).iterations = max_iterations := by
  intro fuel
  induction fuel with
  | zero =>
    intro s hf hle hge
    exact ⟨hf, by simp only [search_loop]; omega⟩
  | succ n ih =>
    intro s hf hle hge
    unfold search_loop
    by_cases hi : s.iterations < max_iterations
    · rw [if_pos ⟨hf, hi⟩]
      obtain ⟨hbf, hbi⟩ := search_body_not_found e root_hash threshold s (hthr _) hi
      apply ih _ hbf
      · rw [hbi]; omega
      · rw [hbi]; omega
    · rw [if_neg (fun hg => hi hg.2)]
      exact ⟨hf, by omega⟩

theorem search_exhausts_of_zero_low_bits (e : externals) (root_hash : List Nat) (D : Nat)
    (h : D % 2 ^ 64 = 0) :
    (search e root_hash D).found = false ∧
      (search e root_hash D).iterations = max_iterations :=
  search_loop_never_accepting e root_hash _ (no_trial_below_zero_threshold e root_hash D h)
    max_iterations (search_init e) rfl (Nat.zero_le _) (Nat.le_add_left _ _)

theorem search_loop_iterations_le (e : externals) (root_hash : List Nat) (threshold : Nat) :
    ∀ (fuel : Nat) (s : search_state), s.iterations ≤ max_iterations →
      (search_loop e root_hash threshold fuel s).iterations ≤ max_iterations := by
  intro fuel
  induction fuel with
  | zero => intro s hs; exact hs
  | succ n ih =>
    intro s hs
    unfold search_loop
    split
    · next hg =>
      apply ih
      have h64 : (s.iterations + 1) % 2 ^ 64 = s.iterations + 1 := by
        apply Nat.mod_eq_of_lt
        have := hg.2
        unfold max_iterations at this
        omega
      unfold search_body
      split
      · exact hs
      · dsimp only
        split <;> (dsimp only; rw [h64]; exact hg.2)
    · exact hs

theorem search_not_found_iterations (e : externals) (root_hash : List Nat) (D : Nat)
    (h : (search e root_hash D).found = false) :
    (search e root_hash D).iterations = max_iterations := by
  have h1 : (search e root_hash D).iterations ≤ max_iterations :=
    search_loop_iterations_le e root_hash _ max_iterations (search_init e) (Nat.zero_le _)
  rcases search_exits e root_hash D with hf | hge
  · rw [h] at hf; cases hf
  · exact Nat.le_antisymm h1 hge

/-- C18: if the low 64 bits of the requested difficulty are zero, no trial is
accepted (no `hash_reversed` value is below the threshold), and for every root
hash, digest function and sequence of draws the search ends with
`found = false` after exactly `max_iterations = 10^10` trials. -/
theorem zero_low_bits_search_exhausts (e : externals) (root_hash : List Nat) (D : Nat)
    (h : D % 2 ^ 64 = 0) :
    (∀ w, ¬ trial_hash_reversed e root_hash w < difficulty_threshold D) ∧
      (search e root_hash D).found = false ∧
      (search e root_hash D).iterations = max_iterations ∧
      max_iterations = 10 ^ 10 :=
  ⟨no_trial_below_zero_threshold e root_hash D h,
    (search_exhausts_of_zero_low_bits e root_hash D h).1,
    (search_exhausts_of_zero_low_bits e root_hash D h).2, by norm_num [max_iterations]⟩

theorem zero_low_bits_search_exhausts_witness :
    (3 * 2 ^ 64) % 2 ^ 64 = 0 ∧
    ((∀ w, ¬ trial_hash_reversed zero_digest_env (List.replicate 32 0) w
        < difficulty_threshold (3 * 2 ^ 64)) ∧
      (search zero_digest_env (List.replicate 32 0) (3 * 2 ^ 64)).found = false ∧
      (search zero_digest_env (List.replicate 32 0) (3 * 2 ^ 64)).iterations = max_iterations ∧
      max_iterations = 10 ^ 10) :=
  ⟨by norm_num, zero_low_bits_search_exhausts zero_digest_env (List.replicate 32 0)
    (3 * 2 ^ 64) (by norm_num)⟩

/-- C20: whenever the search succeeds, the difficulty written to
`result.difficulty` is at least `d64 = D mod 2^64`: it is
`(2^64 - 1) / hash_rev`, which is at least `d64`, when `hash_rev > 0`, and it
is `2^64 - 1` when `hash_rev = 0`. -/
theorem found_difficulty_at_least_requested (e : externals) (base_difficulty : Nat)
    (root_hash : List Nat) (D : Nat) (h : (search e root_hash D).found = true) :
    D % 2 ^ 64 ≤ (generate_result e base_difficulty root_hash D).difficulty ∧
      (0 < trial_hash_reversed e root_hash (search e root_hash D).work_value →
        (generate_result e base_difficulty root_hash D).difficulty
            = (2 ^ 64 - 1) / trial_hash_reversed e root_hash (search e root_hash D).work_value ∧
          D % 2 ^ 64
            ≤ (2 ^ 64 - 1) / trial_hash_reversed e root_hash (search e root_hash D).work_value) ∧
      (trial_hash_reversed e root_hash (search e root_hash D).work_value = 0 →
        (generate_result e base_difficulty root_hash D).difficulty = 2 ^ 64 - 1) := by
  have hthr := search_found_threshold e root_hash D h
  rw [difficulty_threshold_eq] at hthr
  have hres := found_result_difficulty_aux e base_difficulty root_hash D h
  generalize trial_hash_reversed e root_hash (search e root_hash D).work_value = hr at hthr hres
  have hd64 : D % 2 ^ 64 < 2 ^ 64 := Nat.mod_lt _ (by norm_num)
  generalize D % 2 ^ 64 = d at hthr hd64 ⊢
  have hkey : 0 < hr → d ≤ (2 ^ 64 - 1) / hr := by
    intro hpos
    rw [Nat.le_div_iff_mul_le hpos]
    unfold max_64 at hthr
    have hdpos : 0 < d := by
      rcases Nat.eq_zero_or_pos d with h0 | h0
      · rw [h0, Nat.div_zero] at hthr
        exact absurd hthr (Nat.not_lt_zero _)
      · exact h0
    have h1 : (hr + 1) * d ≤ 18446744073709551615 :=
      (Nat.le_div_iff_mul_le hdpos).mp hthr
    have h2 : d * hr ≤ (hr + 1) * d := by
      rw [Nat.mul_comm]
      exact Nat.mul_le_mul_right _ (Nat.le_succ _)
    have h3 : (2 : Nat) ^ 64 - 1 = 18446744073709551615 := by norm_num
    rw [h3]
    exact Nat.le_trans h2 h1
  rw [hres]
  by_cases h0 : hr = 0
  · rw [if_pos h0]
    refine ⟨by omega, fun hpos => by omega, fun _ => rfl⟩
  · rw [if_neg h0]
    have hpos : 0 < hr := Nat.pos_of_ne_zero h0
    exact ⟨hkey hpos, fun _ => ⟨rfl, hkey hpos⟩, fun hz => absurd hz h0⟩

theorem found_difficulty_at_least_requested_witness :
    (search zero_digest_env (List.replicate 32 0) 4).found = true ∧
    (4 % 2 ^ 64 ≤ (generate_result zero_digest_env 4 (List.replicate 32 0) 4).difficulty ∧
      (0 < trial_hash_reversed zero_digest_env (List.replicate 32 0)
          (search zero_digest_env (List.replicate 32 0) 4).work_value →
        (generate_result zero_digest_env 4 (List.replicate 32 0) 4).difficulty
            = (2 ^ 64 - 1) / trial_hash_reversed zero_digest_env (List.replicate 32 0)
                (search zero_digest_env (List.replicate 32 0) 4).work_value ∧
          4 % 2 ^ 64
            ≤ (2 ^ 64 - 1) / trial_hash_reversed zero_digest_env (List.replicate 32 0)
                (search zero_digest_env (List.replicate 32 0) 4).work_value) ∧
      (trial_hash_reversed zero_digest_env (List.replicate 32 0)
          (search zero_digest_env (List.replicate 32 0) 4).work_value = 0 →
        (generate_result zero_digest_env 4 (List.replicate 32 0) 4).difficulty = 2 ^ 64 - 1)) :=
  ⟨by decide, found_difficulty_at_least_requested zero_digest_env 4 (List.replicate 32 0) 4
    (by decide)⟩

/-- C14: when the search has performed `max_iterations` trials without finding
a valid nonce, the worker task still emits a normal generate response: it has
no `error` field, its `multiplier` is 1.0 and its `difficulty` is the
formatted `request.difficulty` of the job. -/
theorem exhausted_search_response (e : externals) (cfg : config) (st : work_handler) (k : Nat)
    (correlation_id : Option String) (j : job)
    (hmock : cfg.mock_work_generation_delay = 0)
    (hrun : st.running.get? k = some (correlation_id, j))
    (hnot : (search e j.request.root_hash j.request.difficulty).found = false) :
    (search e j.request.root_hash j.request.difficulty).iterations = max_iterations ∧
    ∃ r, (worker_complete e cfg st k).2 = some r ∧
      response.field r "error" = none ∧
      response.field r "multiplier" = some (field_value.num 1) ∧
      response.field r "difficulty"
        = some (field_value.str (e.u128_to_hex j.request.difficulty)) := by
  refine ⟨search_not_found_iterations e _ _ hnot, ?_⟩
  have hres : worker_result e cfg j
      = .ok ({ work := store_work (search e j.request.root_hash j.request.difficulty).work_value
               difficulty := j.request.difficulty
               multiplier := 1 }, false) := by
    unfold worker_result generate_result
    rw [if_pos hmock]
    dsimp only
    rw [hnot]
    rfl
  refine ⟨generate_response e
    { work := store_work (search e j.request.root_hash j.request.difficulty).work_value
      difficulty := j.request.difficulty
      multiplier := 1 } false correlation_id, ?_, ?_, ?_, ?_⟩
  · unfold worker_complete
    rw [hrun]
    dsimp only
    rw [hres]
  · cases correlation_id <;> rfl
  · cases correlation_id <;> rfl
  · cases correlation_id <;> rfl

theorem exhausted_search_response_witness :
    (search zero_digest_env (List.replicate 32 0) 0).iterations = max_iterations ∧
    ∃ r, (worker_complete zero_digest_env sample_config sample_running_state 0).2 = some r ∧
      response.field r "error" = none ∧
      response.field r "multiplier" = some (field_value.num 1) ∧
      response.field r "difficulty"
        = some (field_value.str (zero_digest_env.u128_to_hex 0)) :=
  exhausted_search_response zero_digest_env sample_config sample_running_state 0 (some "a")
    { job.new 1 with
      request := { root_hash := List.replicate 32 0, difficulty := 0, multiplier := 0 } }
    rfl rfl (search_exhausts_of_zero_low_bits zero_digest_env (List.replicate 32 0) 0 rfl).1

/-! ## The byte swap -/

theorem and_byte_mask (x k : Nat) : x &&& (255 <<< k) = ((x >>> k) % 256) <<< k := by
  have h255 : (255 : Nat) = 2 ^ 8 - 1 := by norm_num
  have h256 : (256 : Nat) = 2 ^ 8 := by norm_num
  apply Nat.eq_of_testBit_eq
  intro i
  rw [h255, h256]
  simp only [Nat.testBit_and, Nat.testBit_shiftLeft, Nat.testBit_two_pow_sub_one,
    Nat.testBit_mod_two_pow, Nat.testBit_shiftRight]
  by_cases hk : k ≤ i
  · have : k + (i - k) = i := by omega
    simp [hk, this, Bool.and_comm]
  · simp [hk]

theorem lor_shiftLeft_of_lt (a b k : Nat) (h : a < 2 ^ k) : a ||| (b <<< k) = a + b * 2 ^ k := by
  rw [Nat.lor_comm, Nat.shiftLeft_eq, Nat.mul_comm b, ← Nat.mul_add_lt_is_or h]
  omega

theorem masked_shift_right (x k s : Nat) (hs : s ≤ k) :
    (x &&& (255 <<< k)) >>> s = ((x / 2 ^ k) % 256) <<< (k - s) := by
  rw [and_byte_mask, Nat.shiftRight_eq_div_pow x, Nat.shiftLeft_eq, Nat.shiftLeft_eq,
    Nat.shiftRight_eq_div_pow]
  have hk : 2 ^ k = 2 ^ (k - s) * 2 ^ s := by rw [← Nat.pow_add]; congr 1; omega
  rw [hk, ← Nat.mul_assoc, Nat.mul_div_cancel _ (Nat.two_pow_pos s)]

theorem masked_shl64 (x k s : Nat) (hs : k + s + 8 ≤ 64) :
    shl64 (x &&& (255 <<< k)) s = ((x / 2 ^ k) % 256) <<< (k + s) := by
  unfold shl64
  rw [and_byte_mask, Nat.shiftRight_eq_div_pow x, Nat.shiftLeft_eq, Nat.shiftLeft_eq,
    Nat.shiftLeft_eq, Nat.mul_assoc, ← Nat.pow_add]
  apply Nat.mod_eq_of_lt
  have hb : x / 2 ^ k % 256 < 2 ^ 8 := Nat.mod_lt _ (by norm_num)
  calc x / 2 ^ k % 256 * 2 ^ (k + s) < 2 ^ 8 * 2 ^ (k + s) :=
        Nat.mul_lt_mul_of_pos_right hb (Nat.two_pow_pos _)
    _ = 2 ^ (8 + (k + s)) := by rw [← Nat.pow_add]
    _ ≤ 2 ^ 64 := Nat.pow_le_pow_right (by norm_num) (by omega)

theorem hash_reversed_eq (x : Nat) :
    hash_reversed x =
      x / 2 ^ 56 % 256 + x / 2 ^ 48 % 256 * 2 ^ 8 + x / 2 ^ 40 % 256 * 2 ^ 16
      + x / 2 ^ 32 % 256 * 2 ^ 24 + x / 2 ^ 24 % 256 * 2 ^ 32 + x / 2 ^ 16 % 256 * 2 ^ 40
      + x / 2 ^ 8 % 256 * 2 ^ 48 + x / 2 ^ 0 % 256 * 2 ^ 56 := by
  have t7 : (x &&& 0xFF00000000000000) >>> 56 = (x / 2 ^ 56 % 256) <<< 0 :=
    masked_shift_right x 56 56 (by norm_num)
  have t6 : (x &&& 0x00FF000000000000) >>> 40 = (x / 2 ^ 48 % 256) <<< 8 :=
    masked_shift_right x 48 40 (by norm_num)
  have t5 : (x &&& 0x0000FF0000000000) >>> 24 = (x / 2 ^ 40 % 256) <<< 16 :=
    masked_shift_right x 40 24 (by norm_num)
  have t4 : (x &&& 0x000000FF00000000) >>> 8 = (x / 2 ^ 32 % 256) <<< 24 :=
    masked_shift_right x 32 8 (by norm_num)
  have t3 : shl64 (x &&& 0x00000000FF000000) 8 = (x / 2 ^ 24 % 256) <<< 32 :=
    masked_shl64 x 24 8 (by norm_num)
  have t2 : shl64 (x &&& 0x0000000000FF0000) 24 = (x / 2 ^ 16 % 256) <<< 40 :=
    masked_shl64 x 16 24 (by norm_num)
  have t1 : shl64 (x &&& 0x000000000000FF00) 40 = (x / 2 ^ 8 % 256) <<< 48 :=
    masked_shl64 x 8 40 (by norm_num)
  have t0 : shl64 (x &&& 0x00000000000000FF) 56 = (x / 2 ^ 0 % 256) <<< 56 :=
    masked_shl64 x 0 56 (by norm_num)
  unfold hash_reversed
  rw [t7, t6, t5, t4, t3, t2, t1, t0]
  generalize hb7 : x / 2 ^ 56 % 256 = b7
  generalize hb6 : x / 2 ^ 48 % 256 = b6
  generalize hb5 : x / 2 ^ 40 % 256 = b5
  generalize hb4 : x / 2 ^ 32 % 256 = b4
  generalize hb3 : x / 2 ^ 24 % 256 = b3
  generalize hb2 : x / 2 ^ 16 % 256 = b2
  generalize hb1 : x / 2 ^ 8 % 256 = b1
  generalize hb0 : x / 2 ^ 0 % 256 = b0
  have h7 : b7 < 256 := by rw [← hb7]; exact Nat.mod_lt _ (by norm_num)
  have h6 : b6 < 256 := by rw [← hb6]; exact Nat.mod_lt _ (by norm_num)
  have h5 : b5 < 256 := by rw [← hb5]; exact Nat.mod_lt _ (by norm_num)
  have h4 : b4 < 256 := by rw [← hb4]; exact Nat.mod_lt _ (by norm_num)
  have h3 : b3 < 256 := by rw [← hb3]; exact Nat.mod_lt _ (by norm_num)
  have h2 : b2 < 256 := by rw [← hb2]; exact Nat.mod_lt _ (by norm_num)
  have h1 : b1 < 256 := by rw [← hb1]; exact Nat.mod_lt _ (by norm_num)
  rw [Nat.shiftLeft_zero]
  rw [lor_shiftLeft_of_lt b7 b6 8 (by omega)]
  rw [lor_shiftLeft_of_lt _ b5 16 (by omega)]
  rw [lor_shiftLeft_of_lt _ b4 24 (by omega)]
  rw [lor_shiftLeft_of_lt _ b3 32 (by omega)]
  rw [lor_shiftLeft_of_lt _ b2 40 (by omega)]
  rw [lor_shiftLeft_of_lt _ b1 48 (by omega)]
  rw [lor_shiftLeft_of_lt _ b0 56 (by omega)]

theorem hash_reversed_lt (x : Nat) : hash_reversed x < 2 ^ 64 := by
  rw [hash_reversed_eq]
  omega

theorem u64_bytes_exist (x : Nat) (hx : x < 2 ^ 64) : ∃ b0 b1 b2 b3 b4 b5 b6 b7 : Nat,
    b0 < 256 ∧ b1 < 256 ∧ b2 < 256 ∧ b3 < 256 ∧ b4 < 256 ∧ b5 < 256 ∧ b6 < 256 ∧ b7 < 256 ∧
    x = b0 + b1 * 256 + b2 * 65536 + b3 * 16777216 + b4 * 4294967296 + b5 * 1099511627776
      + b6 * 281474976710656 + b7 * 72057594037927936 := by
  refine ⟨x % 256, x / 256 % 256, x / 65536 % 256, x / 16777216 % 256, x / 4294967296 % 256,
    x / 1099511627776 % 256, x / 281474976710656 % 256, x / 72057594037927936 % 256, ?_⟩
  omega

theorem hash_reversed_of_bytes (b0 b1 b2 b3 b4 b5 b6 b7 : Nat)
    (h0 : b0 < 256) (h1 : b1 < 256) (h2 : b2 < 256) (h3 : b3 < 256) (h4 : b4 < 256)
    (h5 : b5 < 256) (h6 : b6 < 256) (h7 : b7 < 256) :
    hash_reversed (b0 + b1 * 256 + b2 * 65536 + b3 * 16777216 + b4 * 4294967296
        + b5 * 1099511627776 + b6 * 281474976710656 + b7 * 72057594037927936)
      = b7 + b6 * 256 + b5 * 65536 + b4 * 16777216 + b3 * 4294967296
        + b2 * 1099511627776 + b1 * 281474976710656 + b0 * 72057594037927936 := by
  rw [hash_reversed_eq]
  generalize hx : b0 + b1 * 256 + b2 * 65536 + b3 * 16777216 + b4 * 4294967296
        + b5 * 1099511627776 + b6 * 281474976710656 + b7 * 72057594037927936 = x
  obtain ⟨d7, d6, d5, d4, d3, d2, d1, d0⟩ :
      x / 2 ^ 56 % 256 = b7 ∧ x / 2 ^ 48 % 256 = b6 ∧ x / 2 ^ 40 % 256 = b5 ∧
      x / 2 ^ 32 % 256 = b4 ∧ x / 2 ^ 24 % 256 = b3 ∧ x / 2 ^ 16 % 256 = b2 ∧
      x / 2 ^ 8 % 256 = b1 ∧ x / 2 ^ 0 % 256 = b0 := by
    refine ⟨?_, ?_, ?_, ?_, ?_, ?_, ?_, ?_⟩ <;> omega
  rw [d7, d6, d5, d4, d3, d2, d1, d0]
  norm_num

theorem u64_to_le_bytes_of_bytes (b0 b1 b2 b3 b4 b5 b6 b7 : Nat)
    (h0 : b0 < 256) (h1 : b1 < 256) (h2 : b2 < 256) (h3 : b3 < 256) (h4 : b4 < 256)
    (h5 : b5 < 256) (h6 : b6 < 256) (h7 : b7 < 256) :
    u64_to_le_bytes (b0 + b1 * 256 + b2 * 65536 + b3 * 16777216
        + b4 * 4294967296 + b5 * 1099511627776 + b6 * 281474976710656
        + b7 * 72057594037927936)
      = [b0, b1, b2, b3, b4, b5, b6, b7] := by
  generalize hx : b0 + b1 * 256 + b2 * 65536 + b3 * 16777216 + b4 * 4294967296
        + b5 * 1099511627776 + b6 * 281474976710656 + b7 * 72057594037927936 = x
  obtain ⟨d0, d1, d2, d3, d4, d5, d6, d7⟩ :
      x / 1 % 256 = b0 ∧ x / 256 % 256 = b1 ∧ x / 65536 % 256 = b2 ∧
      x / 16777216 % 256 = b3 ∧ x / 4294967296 % 256 = b4 ∧ x / 1099511627776 % 256 = b5 ∧
      x / 281474976710656 % 256 = b6 ∧ x / 72057594037927936 % 256 = b7 := by
    refine ⟨?_, ?_, ?_, ?_, ?_, ?_, ?_, ?_⟩ <;> omega
  have p0 : (256 : Nat) ^ 0 = 1 := by norm_num
  have p1 : (256 : Nat) ^ 1 = 256 := by norm_num
  have p2 : (256 : Nat) ^ 2 = 65536 := by norm_num
  have p3 : (256 : Nat) ^ 3 = 16777216 := by norm_num
  have p4 : (256 : Nat) ^ 4 = 4294967296 := by norm_num
  have p5 : (256 : Nat) ^ 5 = 1099511627776 := by norm_num
  have p6 : (256 : Nat) ^ 6 = 281474976710656 := by norm_num
  have p7 : (256 : Nat) ^ 7 = 72057594037927936 := by norm_num
  simp only [u64_to_le_bytes, List.range_succ, List.range_zero, List.nil_append,
    List.cons_append, List.map_cons, List.map_nil]
  rw [p0, p1, p2, p3, p4, p5, p6, p7, d0, d1, d2, d3, d4, d5, d6, d7]

theorem hash_reversed_involutive (x : Nat) (hx : x < 2 ^ 64) :
    hash_reversed (hash_reversed x) = x := by
  obtain ⟨b0, b1, b2, b3, b4, b5, b6, b7, h0, h1, h2, h3, h4, h5, h6, h7, rfl⟩ :=
    u64_bytes_exist x hx
  rw [hash_reversed_of_bytes b0 b1 b2 b3 b4 b5 b6 b7 h0 h1 h2 h3 h4 h5 h6 h7,
    hash_reversed_of_bytes b7 b6 b5 b4 b3 b2 b1 b0 h7 h6 h5 h4 h3 h2 h1 h0]

theorem hash_reversed_bytes (x : Nat) (hx : x < 2 ^ 64) :
    u64_to_le_bytes (hash_reversed x)
      = (u64_to_le_bytes x).reverse := by
  obtain ⟨b0, b1, b2, b3, b4, b5, b6, b7, h0, h1, h2, h3, h4, h5, h6, h7, rfl⟩ :=
    u64_bytes_exist x hx
  rw [hash_reversed_of_bytes b0 b1 b2 b3 b4 b5 b6 b7 h0 h1 h2 h3 h4 h5 h6 h7,
    u64_to_le_bytes_of_bytes b0 b1 b2 b3 b4 b5 b6 b7 h0 h1 h2 h3 h4 h5 h6 h7,
    u64_to_le_bytes_of_bytes b7 b6 b5 b4 b3 b2 b1 b0 h7 h6 h5 h4 h3 h2 h1 h0]
  rfl

/-- C19: for every 64-bit value `hash_le` the mask-and-shift expression of
`hash_reversed` is the full 8-byte reversal (the little-endian bytes of the
result are those of `hash_le` in reverse order), applying it twice gives
`hash_le` back, and for digest bytes `h` the value `hash_rev` is
`h[0..8]` read as a big-endian integer, the sum of `h[i] * 256^(7-i)`. -/
theorem hash_reversed_is_byte_reversal (hash_le : Nat) (h : List Nat)
    (hlt : hash_le < 2 ^ 64) :
    u64_to_le_bytes (hash_reversed hash_le) = (u64_to_le_bytes hash_le).reverse ∧
      hash_reversed (hash_reversed hash_le) = hash_le ∧
      hash_reversed (le_bytes_to_u64 h)
        = ((List.range 8).map (fun i => (h.getD i 0 % 256) * 256 ^ (7 - i))).sum := by
  refine ⟨hash_reversed_bytes hash_le hlt, hash_reversed_involutive hash_le hlt, ?_⟩
  have hb : ∀ i, h.getD i 0 % 256 < 256 := fun i => Nat.mod_lt _ (by norm_num)
  have key := hash_reversed_of_bytes (h.getD 0 0 % 256) (h.getD 1 0 % 256) (h.getD 2 0 % 256)
    (h.getD 3 0 % 256) (h.getD 4 0 % 256) (h.getD 5 0 % 256) (h.getD 6 0 % 256)
    (h.getD 7 0 % 256) (hb 0) (hb 1) (hb 2) (hb 3) (hb 4) (hb 5) (hb 6) (hb 7)
  have hle : le_bytes_to_u64 h
      = h.getD 0 0 % 256 + h.getD 1 0 % 256 * 256 + h.getD 2 0 % 256 * 65536
        + h.getD 3 0 % 256 * 16777216 + h.getD 4 0 % 256 * 4294967296
        + h.getD 5 0 % 256 * 1099511627776 + h.getD 6 0 % 256 * 281474976710656
        + h.getD 7 0 % 256 * 72057594037927936 := by
    rw [le_bytes_to_u64_eq]
    norm_num
  rw [hle, key]
  simp only [List.range_succ, List.range_zero, List.nil_append, List.cons_append,
    List.map_cons, List.map_nil, List.sum_cons, List.sum_nil]
  norm_num
  omega

theorem hash_reversed_is_byte_reversal_witness :
    0x0102030405060708 < 2 ^ 64 ∧
    (u64_to_le_bytes (hash_reversed 0x0102030405060708)
        = (u64_to_le_bytes 0x0102030405060708).reverse ∧
      hash_reversed (hash_reversed 0x0102030405060708) = 0x0102030405060708 ∧
      hash_reversed (le_bytes_to_u64 [1, 2, 3, 4, 5, 6, 7, 8, 9])
        = ((List.range 8).map
            (fun i => ([1, 2, 3, 4, 5, 6, 7, 8, 9].getD i 0 % 256) * 256 ^ (7 - i))).sum) :=
  ⟨by norm_num, hash_reversed_is_byte_reversal 0x0102030405060708 [1, 2, 3, 4, 5, 6, 7, 8, 9]
    (by norm_num)⟩

/-! ## The nonce of an exhausted search -/

theorem search_body_reseed_invariant (e : externals) (root_hash : List Nat) (threshold : Nat)
    (s : search_state) (hi : s.iterations < max_iterations)
    (hs : reseed_invariant e s) :
    reseed_invariant e (search_body e root_hash threshold s) := by
  have h64 : (s.iterations + 1) % 2 ^ 64 = s.iterations + 1 := by
    apply Nat.mod_eq_of_lt
    unfold max_iterations at hi
    omega
  unfold reseed_invariant reseed_period at hs ⊢
  obtain ⟨hd, hw⟩ := hs
  unfold search_body reseed_period
  split
  · exact ⟨hd, hw⟩
  · dsimp only
    rw [h64]
    split
    · next hc =>
      constructor
      · dsimp only
        omega
      · intro _ _
        dsimp only
        have hq : (s.iterations + 1) / 100000000 = s.draws := by omega
        rw [hq]
    · next hc =>
      constructor
      · dsimp only
        omega
      · intro h1 h2
        exact absurd ⟨h1, h2⟩ hc

theorem search_loop_reseed_invariant (e : externals) (root_hash : List Nat) (threshold : Nat) :
    ∀ (fuel : Nat) (s : search_state), reseed_invariant e s →
      reseed_invariant e (search_loop e root_hash threshold fuel s) := by
  intro fuel
  induction fuel with
  | zero => intro s hs; exact hs
  | succ n ih =>
    intro s hs
    unfold search_loop
    split
    · next hg => exact ih _ (search_body_reseed_invariant e root_hash threshold s hg.2 hs)
    · exact hs

/-- An exhausted search returns the draw made by the reseed at trial `10^10`,
for every digest, root hash and difficulty. -/
theorem search_exhausted_work_value (e : externals) (root_hash : List Nat) (D : Nat)
    (h : (search e root_hash D).found = false) :
    (search e root_hash D).work_value = draw e 100 := by
  have hinv : reseed_invariant e (search e root_hash D) := by
    unfold search
    apply search_loop_reseed_invariant
    constructor
    · simp [search_init, reseed_period]
    · intro h0
      simp [search_init] at h0
  have hit := search_not_found_iterations e root_hash D h
  have h2 := hinv.2
  rw [hit] at h2
  exact h2 (by decide) (by decide)

theorem never_passing_trial (root_hash : List Nat) (threshold_of : Nat) (w : Nat) :
    ¬ trial_hash_reversed never_passing_env root_hash w < difficulty_threshold threshold_of := by
  have h1 : trial_hash_reversed never_passing_env root_hash w = 2 ^ 64 - 1 := by
    show hash_reversed (le_bytes_to_u64 (List.replicate 64 255)) = 2 ^ 64 - 1
    decide
  have h2 : difficulty_threshold threshold_of ≤ 2 ^ 64 - 1 := by
    rw [difficulty_threshold_eq]
    exact Nat.div_le_self _ _
  omega

theorem spaced_body_invariant (e : externals) (root_hash : List Nat) (threshold : Nat)
    (s : search_state) (hthr : ∀ w, ¬ trial_hash_reversed e root_hash w < threshold)
    (hdis : ∀ k, e.dis k = k * 2 ^ 40)
    (hi : s.iterations < max_iterations) (hs : spaced_invariant s) :
    spaced_invariant (search_body e root_hash threshold s) := by
  unfold spaced_invariant at hs ⊢
  obtain ⟨-, -, hd, hw⟩ := hs
  unfold max_iterations at hi ⊢
  have h64 : (s.iterations + 1) % 2 ^ 64 = s.iterations + 1 := by
    apply Nat.mod_eq_of_lt
    omega
  unfold search_body reseed_period
  rw [if_neg (hthr s.work_value)]
  dsimp only
  rw [h64]
  split
  · next hc =>
    have hdraw : draw e s.draws = s.draws * 2 ^ 40 % 2 ^ 64 := by
      unfold draw
      rw [hdis]
    dsimp only
    rw [hdraw]
    refine ⟨rfl, by omega, by omega, ?_⟩
    omega
  · next hc =>
    dsimp only
    refine ⟨rfl, by omega, by omega, ?_⟩
    omega

theorem spaced_tests_bound (e : externals) (root_hash : List Nat) (threshold : Nat) (v : Nat)
    (hthr : ∀ w, ¬ trial_hash_reversed e root_hash w < threshold)
    (hdis : ∀ k, e.dis k = k * 2 ^ 40) :
    ∀ (fuel : Nat) (s : search_state), spaced_invariant s →
      search_tests e root_hash threshold fuel s v = true → v < 100 * 2 ^ 40 := by
  intro fuel
  induction fuel with
  | zero =>
    intro s _ ht
    simp [search_tests] at ht
  | succ n ih =>
    intro s hs ht
    unfold search_tests at ht
    split at ht
    · next hg =>
      rw [Bool.or_eq_true] at ht
      rcases ht with hv | hrec
      · have hv2 : s.work_value = v := by simpa using hv
        obtain ⟨-, -, -, hw⟩ := hs
        have hlt := hg.2
        unfold max_iterations at hlt
        omega
      · exact ih _ (spaced_body_invariant e root_hash threshold s hthr hdis hg.2 hs) hrec
    · cases ht

theorem spaced_exhausted_untested (e : externals) (base_difficulty : Nat)
    (root_hash : List Nat) (D : Nat)
    (hthr : ∀ w, ¬ trial_hash_reversed e root_hash w < difficulty_threshold D)
    (hdis : ∀ k, e.dis k = k * 2 ^ 40) :
    (search e root_hash D).found = false ∧
    (search e root_hash D).iterations = max_iterations ∧
    work_nonce (generate_result e base_difficulty root_hash D).work = 100 * 2 ^ 40 ∧
    search_tests e root_hash (difficulty_threshold D) max_iterations (search_init e)
      (work_nonce (generate_result e base_difficulty root_hash D).work) = false := by
  have hnf : (search e root_hash D).found = false :=
    (search_loop_never_accepting e _ _ hthr max_iterations (search_init e) rfl
      (Nat.zero_le _) (Nat.le_add_left _ _)).1
  have hw := search_exhausted_work_value e root_hash D hnf
  have hd : draw e 100 = 100 * 2 ^ 40 := by
    unfold draw
    rw [hdis]
    norm_num
  have hinit : spaced_invariant (search_init e) := by
    have h0 : draw e 0 = 0 := by
      unfold draw
      rw [hdis]
      norm_num
    unfold spaced_invariant search_init
    rw [h0]
    exact ⟨rfl, Nat.zero_le _, by norm_num, by norm_num⟩
  refine ⟨hnf, search_not_found_iterations _ _ _ hnf, ?_, ?_⟩
  · rw [generate_result_nonce, hw, hd]
  · rw [generate_result_nonce, hw, hd]
    cases ht : search_tests e root_hash (difficulty_threshold D) max_iterations (search_init e)
      (100 * 2 ^ 40) with
    | false => rfl
    | true =>
      have hb := spaced_tests_bound e root_hash _ (100 * 2 ^ 40) hthr hdis max_iterations
        (search_init e) hinit ht
      exact absurd hb (Nat.lt_irrefl _)

/-- C17 fails on the code: when the search exhausts `max_iterations`, the
nonce it returns is the value drawn by the reseed after the last failed trial,
which the loop never hashes. With the random draws `k * 2^40`: for every digest
function and root hash a request with difficulty 0 (no trial can pass), and
for a digest that no trial passes a request at the default difficulty, return
the nonce `100 * 2^40`, the 101st draw, and that nonce is none of the `10^10`
nonces the loop tested. -/
theorem exhausted_search_returns_untested_nonce (e : externals) (root_hash : List Nat) :
    ((search (spaced_draws e) root_hash 0).found = false ∧
      (search (spaced_draws e) root_hash 0).iterations = max_iterations ∧
      work_nonce (generate_result (spaced_draws e) 0x2000000000000000 root_hash 0).work
        = 100 * 2 ^ 40 ∧
      search_tests (spaced_draws e) root_hash (difficulty_threshold 0) max_iterations
        (search_init (spaced_draws e))
        (work_nonce (generate_result (spaced_draws e) 0x2000000000000000 root_hash 0).work)
        = false) ∧
    ((search never_passing_env root_hash 0x2000000000000000).found = false ∧
      (search never_passing_env root_hash 0x2000000000000000).iterations = max_iterations ∧
      work_nonce (generate_result never_passing_env 0x2000000000000000 root_hash
        0x2000000000000000).work = 100 * 2 ^ 40 ∧
      search_tests never_passing_env root_hash (difficulty_threshold 0x2000000000000000)
        max_iterations (search_init never_passing_env)
        (work_nonce (generate_result never_passing_env 0x2000000000000000 root_hash
          0x2000000000000000).work) = false) :=
  ⟨spaced_exhausted_untested (spaced_draws e) _ root_hash 0
      (no_trial_below_zero_threshold _ root_hash 0 rfl) (fun _ => rfl),
    spaced_exhausted_untested never_passing_env _ root_hash 0x2000000000000000
      (never_passing_trial root_hash 0x2000000000000000) (fun _ => rfl)⟩

/-! ## Job ids -/

theorem dispenser_after_eq (n : Nat) : dispenser_after n = (n + 1) % 2 ^ 32 := by
  induction n with
  | zero => rfl
  | succ k ih =>
    unfold dispenser_after dispenser_fetch_add
    rw [ih]
    omega

theorem constructed_job_id_eq (n : Nat) : constructed_job_id n = (n + 1) % 2 ^ 32 :=
  dispenser_after_eq n

theorem handle_work_generate_dispenser (e : externals) (cfg : config) (st : work_handler)
    (request : ptree_request) (hdev : cfg.devices ≠ 0) :
    (handle_work_generate e cfg st request).1.job_id_dispenser
      = dispenser_fetch_add st.job_id_dispenser := by
  unfold handle_work_generate queue_request dispenser_fetch_add
  rw [if_neg hdev]
  dsimp only
  repeat' split
  all_goals rfl

/-- C11, amended: the first job constructed in the process gets id 1, every
later job gets the id of the job constructed before it plus one modulo `2^32`
(plus one exactly, as long as fewer than `2^32 - 1` jobs were constructed
before it), and two jobs constructed fewer than `2^32` constructions apart
never share an id. -/
theorem job_ids_sequential_until_wrap (m n : Nat) (hmn : m < n) (hwin : n < m + 2 ^ 32) :
    constructed_job_id 0 = 1 ∧
      constructed_job_id (n + 1) = (constructed_job_id n + 1) % 2 ^ 32 ∧
      (n + 2 < 2 ^ 32 → constructed_job_id (n + 1) = constructed_job_id n + 1) ∧
      constructed_job_id m ≠ constructed_job_id n := by
  simp only [constructed_job_id_eq]
  refine ⟨by norm_num, by omega, fun h => by omega, by omega⟩

theorem job_ids_sequential_until_wrap_witness :
    constructed_job_id 0 = 1 ∧
      constructed_job_id (5 + 1) = (constructed_job_id 5 + 1) % 2 ^ 32 ∧
      (5 + 2 < 2 ^ 32 → constructed_job_id (5 + 1) = constructed_job_id 5 + 1) ∧
      constructed_job_id 2 ≠ constructed_job_id 5 :=
  job_ids_sequential_until_wrap 2 5 (by norm_num) (by norm_num)

/-- C11 as stated fails: the dispenser is a 32-bit `unsigned`, so the job
constructed after `2^32 - 1` others gets id 0, not the id `2^32 - 1` of the job
before it plus one, and the job constructed after `2^32` others gets id 1
again, the id of the first job. -/
theorem job_ids_counterexample :
    constructed_job_id (2 ^ 32 - 2) = 2 ^ 32 - 1 ∧
    constructed_job_id (2 ^ 32 - 1) = 0 ∧
    constructed_job_id (2 ^ 32 - 1) ≠ constructed_job_id (2 ^ 32 - 2) + 1 ∧
    constructed_job_id (2 ^ 32) = constructed_job_id 0 := by
  simp only [constructed_job_id_eq]
  norm_num

/-! ## Correlation ids -/

theorem echoes_none (id : Option String) : echoes id none := by
  intro r h
  cases h

theorem echoes_error (id : Option String) (what : String) :
    echoes id (some (create_error_response id what)) := by
  intro r h
  cases h
  cases id <;> rfl

theorem echoes_validate (id : Option String) (a b c : String) :
    echoes id (some (attach_correlation_id id
      [("valid", field_value.str a), ("difficulty", field_value.str b),
       ("multiplier", field_value.str c)])) := by
  intro r h
  cases h
  cases id <;> rfl

theorem echoes_cancel (id : Option String) (a : String) :
    echoes id (some (attach_correlation_id id [("status", field_value.str a)])) := by
  intro r h
  cases h
  cases id <;> rfl

theorem echoes_generate (e : externals) (id : Option String) (result : job_result)
    (testing : Bool) : echoes id (some (generate_response e result testing id)) := by
  intro r h
  cases h
  cases id <;> cases testing <;> rfl

theorem handle_request_async_echoes (e : externals) (cfg : config) (st : work_handler)
    (request : ptree_request) :
    echoes request.id (handle_request_async e cfg st request).2 := by
  unfold handle_request_async handle_work_generate handle_work_validate handle_work_cancel
    queue_request
  dsimp only
  repeat' split
  all_goals first
    | exact echoes_none _
    | exact echoes_error _ _
    | exact echoes_validate _ _ _ _
    | exact echoes_cancel _ _

theorem handle_request_async_posts_id (e : externals) (cfg : config) (st : work_handler)
    (request : ptree_request) (h : (handle_request_async e cfg st request).2 = none) :
    (handle_request_async e cfg st request).1.posted = st.posted ++ [request.id] := by
  unfold handle_request_async handle_work_generate handle_work_validate handle_work_cancel
    queue_request at h ⊢
  dsimp only at h ⊢
  repeat' split at h
  all_goals cases h
  all_goals simp_all

/-- C16: every response emitted for a request whose body parses carries the
request's correlation id: the `id` field holds the same string when the request
has an `id` and is absent when it has none. This holds for the responses
`handle_request_async` emits itself (validate result, cancel status, every
error), and for the responses of the worker task posted by an accepted
work_generate request, which captures the request's id and answers with it in
each of its parts (no job available, device error, generate result). -/
theorem responses_carry_correlation_id (e : externals) (cfg : config) (st : work_handler)
    (request : ptree_request) (k : Nat) (device : Except String Unit) :
    echoes request.id (handle_request_async e cfg st request).2 ∧
    ((handle_request_async e cfg st request).2 = none →
      (handle_request_async e cfg st request).1.posted = st.posted ++ [request.id]) ∧
    (∀ id, st.posted.get? k = some id →
      echoes id (worker_pop st k).2 ∧
      ((worker_pop st k).2 = none →
        ∃ j, (worker_pop st k).1.popped = st.popped ++ [(id, j)])) ∧
    (∀ id j, st.popped.get? k = some (id, j) →
      echoes id (worker_activate st k device).2 ∧
      ((worker_activate st k device).2 = none →
        (worker_activate st k device).1.running = st.running ++ [(id, j)])) ∧
    (∀ id j, st.running.get? k = some (id, j) →
      echoes id (worker_complete e cfg st k).2) := by
  refine ⟨handle_request_async_echoes e cfg st request,
    handle_request_async_posts_id e cfg st request, ?_, ?_, ?_⟩
  · intro id hid
    unfold worker_pop
    rw [hid]
    dsimp only
    cases hj : st.jobs with
    | nil => exact ⟨echoes_error _ _, fun h => by cases h⟩
    | cons j rest => exact ⟨echoes_none _, fun _ => ⟨j, rfl⟩⟩
  · intro id j hid
    unfold worker_activate
    rw [hid]
    dsimp only
    cases device with
    | error what => exact ⟨echoes_error _ _, fun h => by cases h⟩
    | ok u => exact ⟨echoes_none _, fun _ => rfl⟩
  · intro id j hid
    unfold worker_complete
    rw [hid]
    dsimp only
    cases worker_result e cfg j with
    | error what => exact echoes_error _ _
    | ok res => exact echoes_generate e id res.1 res.2

/-! ## The mock response -/

theorem work_hex_ne_lower_case (work : List Nat) : work_hex work ≠ "2feaeaa000000000" := by
  intro h
  have hc := work_hex_chars work 'f' (by rw [h]; decide)
  revert hc
  decide

/-- C15 fails on the code: with `mock_work_generation_delay = 1` the
work_generate request for the hash of 64 zero digits is answered with
`testing = true` and `multiplier = 1.3847`, but not with the `work` of the
mock constant: the mock branch stores the U128 parsed from `2feaeaa000000000`
in `job.result.work`, and the formatter of lines 392 to 398 prints bytes 7 to
0 of it in upper case. With the hex parser, big-endian bytes and formatter of
the specification the response carries `work = 0000000000000000` and the
full-width `difficulty`; and for every sixteen bytes whatever, the formatter
never prints the lower-case `2feaeaa000000000`. -/
theorem mock_generate_response (e : externals) :
    mock_config.mock_work_generation_delay = 1 ∧
    (worker_complete (spec_externals e) mock_config (mock_running_state e) 0).2
      = some [("testing", field_value.bool true),
              ("work", field_value.str "0000000000000000"),
              ("difficulty", field_value.str "000000000000000002ffee0000000000"),
              ("multiplier", field_value.num 1.3847)] ∧
    (∀ r, (worker_complete (spec_externals e) mock_config (mock_running_state e) 0).2 = some r →
      response.field r "work" ≠ some (field_value.str "2feaeaa000000000") ∧
      response.field r "difficulty" ≠ some (field_value.str "0x2ffee0000000000") ∧
      response.field r "multiplier" = some (field_value.num 1.3847) ∧
      response.field r "testing" = some (field_value.bool true)) ∧
    (∀ work : List Nat, work_hex work ≠ "2feaeaa000000000") := by
  have hresp : (worker_complete (spec_externals e) mock_config (mock_running_state e) 0).2
      = some [("testing", field_value.bool true),
              ("work", field_value.str "0000000000000000"),
              ("difficulty", field_value.str "000000000000000002ffee0000000000"),
              ("multiplier", field_value.num 1.3847)] := by
    obtain ⟨j, hj⟩ : ∃ j, (mock_running_state e).running.get? 0 = some (none, j) := ⟨_, rfl⟩
    have hres : worker_result (spec_externals e) mock_config j
        = .ok ({ work := spec_be_bytes 16 0x2feaeaa000000000
                 difficulty := 0x2ffee0000000000
                 multiplier := 1.3847 }, true) := rfl
    have hwork : work_hex (spec_be_bytes 16 0x2feaeaa000000000) = "0000000000000000" := by
      decide
    unfold worker_complete
    rw [hj]
    dsimp only
    rw [hres]
    dsimp only
    unfold generate_response
    dsimp only
    rw [hwork]
    rfl
  refine ⟨rfl, hresp, ?_, work_hex_ne_lower_case⟩
  intro r hr
  rw [hresp] at hr
  cases hr
  refine ⟨by decide, by decide, rfl, rfl⟩

/-! ## Job ids in the collections -/

theorem get?_split {α : Type} (l : List α) : ∀ (k : Nat) (x : α), l.get? k = some x →
    ∃ l1 l2, l = l1 ++ x :: l2 ∧ l.eraseIdx k = l1 ++ l2 := by
  induction l with
  | nil => intro k x h; cases h
  | cons a t ih =>
    intro k x h
    cases k with
    | zero =>
      simp only [List.get?_cons_zero, Option.some.injEq] at h
      exact ⟨[], t, by rw [h]; rfl, rfl⟩
    | succ n =>
      simp only [List.get?_cons_succ] at h
      obtain ⟨l1, l2, h1, h2⟩ := ih n x h
      exact ⟨a :: l1, l2, by rw [h1]; rfl, by rw [List.eraseIdx_cons_succ, h2]; rfl⟩

theorem mem_queue_push (j x : job) (jobs : List job) :
    x ∈ queue_push j jobs ↔ x = j ∨ x ∈ jobs := by
  rw [(queue_push_perm j jobs).mem_iff, List.mem_cons]

theorem mem_active_insert (j x : job) (active_jobs : List job)
    (h : x ∈ active_insert j active_jobs) : x ∈ active_jobs ∨ x = j := by
  unfold active_insert at h
  split at h
  · exact Or.inl h
  · rw [List.mem_append, List.mem_singleton] at h
    exact h

theorem mem_active_erase (j x : job) (active_jobs : List job)
    (h : x ∈ active_erase j active_jobs) : x ∈ active_jobs ∧ x.job_id ≠ j.job_id := by
  unfold active_erase at h
  rw [List.mem_filter] at h
  exact ⟨h.1, by simpa using h.2⟩

theorem mem_completed_push_back (capacity : Nat) (j x : job) (completed_jobs : List job)
    (h : x ∈ completed_push_back capacity j completed_jobs) : x ∈ completed_jobs ∨ x = j := by
  unfold completed_push_back at h
  have h2 := List.mem_of_mem_drop h
  rw [List.mem_append, List.mem_singleton] at h2
  exact h2

theorem run_append (e : externals) (cfg : config) (st : work_handler) (a b : List event) :
    run e cfg st (a ++ b) = run e cfg (run e cfg st a) b := by
  unfold run
  rw [List.foldl_append]

theorem run_cons (e : externals) (cfg : config) (st : work_handler) (ev : event)
    (rest : List event) :
    run e cfg st (ev :: rest) = run e cfg (step e cfg st ev).1 rest := rfl

theorem handle_work_generate_cases (e : externals) (cfg : config) (st : work_handler)
    (request : ptree_request) :
    ((handle_work_generate e cfg st request).1 = st ∧
      (handle_work_generate e cfg st request).2 ≠ none) ∨
    ((handle_work_generate e cfg st request).1
        = { st with job_id_dispenser := dispenser_fetch_add st.job_id_dispenser } ∧
      (handle_work_generate e cfg st request).2 ≠ none) ∨
    ∃ j : job, j.job_id = st.job_id_dispenser ∧
      (cfg.allow_prioritization = false → j.priority = 0) ∧
      (handle_work_generate e cfg st request).1
        = { st with job_id_dispenser := dispenser_fetch_add st.job_id_dispenser
                    jobs := queue_push j st.jobs
                    posted := st.posted ++ [request.id] } ∧
      (handle_work_generate e cfg st request).2 = none := by
  unfold handle_work_generate queue_request dispenser_fetch_add
  dsimp only
  split
  · exact Or.inl ⟨rfl, by simp⟩
  · split
    · exact Or.inr (Or.inl ⟨rfl, by simp⟩)
    · split
      · exact Or.inr (Or.inl ⟨rfl, by simp⟩)
      · split
        · exact Or.inr (Or.inl ⟨rfl, by simp⟩)
        · split
          · refine Or.inr (Or.inr ⟨_, ?_, ?_, rfl, rfl⟩)
            · split <;> rfl
            · intro hp
              rw [hp]
              rfl
          · exact Or.inr (Or.inl ⟨rfl, by simp⟩)

theorem handle_work_cancel_cases (e : externals) (st : work_handler)
    (request : ptree_request) :
    (handle_work_cancel e st request).1 = st ∨
    ∃ hash, (handle_work_cancel e st request).1
      = { st with jobs := st.jobs.eraseP (fun j => j.request.root_hash == hash) } := by
  unfold handle_work_cancel remove_job
  dsimp only
  repeat' split
  all_goals first
    | exact Or.inl rfl
    | exact Or.inr ⟨_, rfl⟩

theorem ids_invariant_transfer (st st2 : work_handler) (h : ids_invariant st)
    (hd : st.job_id_dispenser ≤ st2.job_id_dispenser)
    (hnodup : (queued_ids st2 ++ popped_ids st2).Nodup)
    (hqp : ∀ i, i ∈ queued_ids st2 ++ popped_ids st2 → i ∈ queued_ids st ++ popped_ids st)
    (hr : ∀ i, i ∈ running_ids st2 → i ∈ running_ids st)
    (ha : ∀ i, i ∈ active_ids st2 → i ∈ active_ids st)
    (hc : ∀ i, i ∈ completed_ids st2 → i ∈ completed_ids st) : ids_invariant st2 := by
  obtain ⟨hb, -, hd1, hd2⟩ := h
  refine ⟨?_, hnodup, ?_, ?_⟩
  · intro i hi
    apply Nat.lt_of_lt_of_le _ hd
    apply hb
    simp only [List.mem_append] at hi hqp ⊢
    rcases hi with (((hi | hi) | hi) | hi) | hi
    · exact Or.inl (Or.inl (Or.inl (hqp i (Or.inl hi))))
    · exact Or.inl (Or.inl (Or.inl (hqp i (Or.inr hi))))
    · exact Or.inl (Or.inl (Or.inr (hr i hi)))
    · exact Or.inl (Or.inr (ha i hi))
    · exact Or.inr (hc i hi)
  · intro i hi hi2
    apply hd1 i (hqp i hi)
    simp only [List.mem_append] at hi2 ⊢
    rcases hi2 with (hi2 | hi2) | hi2
    · exact Or.inl (Or.inl (hr i hi2))
    · exact Or.inl (Or.inr (ha i hi2))
    · exact Or.inr (hc i hi2)
  · intro i hi hi2
    exact hd2 i (ha i hi) (hc i hi2)

theorem dispenser_fetch_add_of_lt (d : Nat) (h : d + 1 < 2 ^ 32) :
    dispenser_fetch_add d = d + 1 := Nat.mod_eq_of_lt h

theorem ids_invariant_submit (st : work_handler) (j : job) (posted : List (Option String))
    (h : ids_invariant st) (hj : j.job_id = st.job_id_dispenser) :
    ids_invariant { st with job_id_dispenser := st.job_id_dispenser + 1
                            jobs := queue_push j st.jobs
                            posted := posted } := by
  obtain ⟨hb, hn, hd1, hd2⟩ := h
  have hperm : (List.map job.job_id (queue_push j st.jobs)).Perm
      (j.job_id :: List.map job.job_id st.jobs) := (queue_push_perm j st.jobs).map _
  have hnew : ∀ l : List Nat, (∀ i, i ∈ l → i < st.job_id_dispenser) → j.job_id ∉ l := by
    intro l hl hmem
    have := hl _ hmem
    omega
  unfold ids_invariant queued_ids popped_ids running_ids active_ids completed_ids at *
  dsimp only
  simp only [List.mem_append] at hb hd1 ⊢
  refine ⟨?_, ?_, ?_, hd2⟩
  · intro i hi
    rcases hi with (((hi | hi) | hi) | hi) | hi
    · rw [hperm.mem_iff, List.mem_cons] at hi
      rcases hi with hi | hi
      · omega
      · exact Nat.lt_succ_of_lt (hb i (Or.inl (Or.inl (Or.inl (Or.inl hi)))))
    · exact Nat.lt_succ_of_lt (hb i (Or.inl (Or.inl (Or.inl (Or.inr hi)))))
    · exact Nat.lt_succ_of_lt (hb i (Or.inl (Or.inl (Or.inr hi))))
    · exact Nat.lt_succ_of_lt (hb i (Or.inl (Or.inr hi)))
    · exact Nat.lt_succ_of_lt (hb i (Or.inr hi))
  · have hp2 := (hperm.append_right (List.map (fun t => t.2.job_id) st.popped))
    rw [hp2.nodup_iff, List.cons_append, List.nodup_cons]
    refine ⟨?_, hn⟩
    apply hnew
    intro i hi
    rw [List.mem_append] at hi
    rcases hi with hi | hi
    · exact hb i (Or.inl (Or.inl (Or.inl (Or.inl hi))))
    · exact hb i (Or.inl (Or.inl (Or.inl (Or.inr hi))))
  · intro i hi
    rcases hi with hi | hi
    · rw [hperm.mem_iff, List.mem_cons] at hi
      rcases hi with hi | hi
      · rw [hi]
        intro hmem
        rcases hmem with (hmem | hmem) | hmem
        · exact hnew _ (fun i hi => hb i (Or.inl (Or.inl (Or.inr hi)))) hmem
        · exact hnew _ (fun i hi => hb i (Or.inl (Or.inr hi))) hmem
        · exact hnew _ (fun i hi => hb i (Or.inr hi)) hmem
      · exact hd1 i (Or.inl hi)
    · exact hd1 i (Or.inr hi)

theorem ids_invariant_request (e : externals) (cfg : config) (st : work_handler)
    (r : ptree_request) (h : ids_invariant st) (hw : st.job_id_dispenser + 1 < 2 ^ 32) :
    ids_invariant (handle_request_async e cfg st r).1 ∧
      (handle_request_async e cfg st r).1.job_id_dispenser ≤ st.job_id_dispenser + 1 := by
  unfold handle_request_async
  split
  · rcases handle_work_generate_cases e cfg st r with ⟨h1, -⟩ | ⟨h1, -⟩ | ⟨j, hj, -, h1, -⟩
    · rw [h1]
      exact ⟨h, Nat.le_succ _⟩
    · rw [h1, dispenser_fetch_add_of_lt _ hw]
      refine ⟨ids_invariant_transfer st _ h (Nat.le_succ _) h.2.1 ?_ ?_ ?_ ?_, Nat.le_refl _⟩
        <;> exact fun i hi => hi
    · rw [h1, dispenser_fetch_add_of_lt _ hw]
      exact ⟨ids_invariant_submit st j _ h hj, Nat.le_refl _⟩
  · split
    · rw [handle_work_validate_state]
      exact ⟨h, Nat.le_succ _⟩
    · split
      · rcases handle_work_cancel_cases e st r with h1 | ⟨hash, h1⟩
        · rw [h1]
          exact ⟨h, Nat.le_succ _⟩
        · rw [h1]
          have hsub : (List.map job.job_id
              (st.jobs.eraseP (fun j => j.request.root_hash == hash))).Sublist
              (List.map job.job_id st.jobs) := (List.eraseP_sublist _).map _
          refine ⟨ids_invariant_transfer st _ h (Nat.le_refl _) ?_ ?_ ?_ ?_ ?_, Nat.le_succ _⟩
          · exact List.Nodup.sublist (List.Sublist.append hsub (List.Sublist.refl _)) h.2.1
          · intro i hi
            unfold queued_ids popped_ids at hi ⊢
            rw [List.mem_append] at hi ⊢
            rcases hi with hi | hi
            · exact Or.inl (hsub.subset hi)
            · exact Or.inr hi
          · exact fun i hi => hi
          · exact fun i hi => hi
          · exact fun i hi => hi
      · exact ⟨h, Nat.le_succ _⟩

theorem ids_invariant_queue_delete (cfg : config) (st : work_handler) (h : ids_invariant st) :
    ids_invariant (handle_queue_delete_request cfg st).1 := by
  unfold handle_queue_delete_request
  split
  · refine ids_invariant_transfer st _ h (Nat.le_refl _) ?_ ?_ ?_ ?_ ?_
    · have hsub : (popped_ids st).Sublist (queued_ids st ++ popped_ids st) :=
        List.sublist_append_right _ _
      exact List.Nodup.sublist hsub h.2.1
    · intro i hi
      unfold queued_ids popped_ids at hi ⊢
      rw [List.mem_append] at hi ⊢
      rcases hi with hi | hi
      · cases hi
      · exact Or.inr hi
    · exact fun i hi => hi
    · exact fun i hi => hi
    · exact fun i hi => hi
  · exact h

theorem ids_invariant_worker_pop (st : work_handler) (k : Nat) (h : ids_invariant st) :
    ids_invariant (worker_pop st k).1 := by
  unfold worker_pop
  split
  · exact h
  · dsimp only
    cases hj : st.jobs with
    | nil =>
      dsimp only
      refine ids_invariant_transfer st _ h (Nat.le_refl _) ?_ ?_ ?_ ?_ ?_
      · have hsub : (popped_ids st).Sublist (queued_ids st ++ popped_ids st) :=
          List.sublist_append_right _ _
        exact List.Nodup.sublist hsub h.2.1
      · intro i hi
        unfold queued_ids popped_ids at hi ⊢
        dsimp only at hi
        rw [List.mem_append] at hi ⊢
        rcases hi with hi | hi
        · cases hi
        · exact Or.inr hi
      · exact fun i hi => hi
      · exact fun i hi => hi
      · exact fun i hi => hi
    | cons j rest =>
      dsimp only
      have hperm : ∀ c : Option String, (List.map job.job_id rest
            ++ List.map (fun t : Option String × job => t.2.job_id) (st.popped ++ [(c, j)])).Perm
          (queued_ids st ++ popped_ids st) := by
        intro c
        unfold queued_ids popped_ids
        rw [hj, List.map_append, List.map_cons, List.map_cons, List.map_nil,
          ← List.append_assoc]
        exact List.perm_append_comm
      refine ids_invariant_transfer st _ h (Nat.le_refl _) ?_ ?_ ?_ ?_ ?_
      · exact (hperm _).nodup_iff.mpr h.2.1
      · intro i hi
        exact (hperm _).mem_iff.mp hi
      · exact fun i hi => hi
      · exact fun i hi => hi
      · exact fun i hi => hi

theorem ids_invariant_activate (st st2 : work_handler) (x : Nat) (P1 P2 : List Nat)
    (h : ids_invariant st) (hd : st2.job_id_dispenser = st.job_id_dispenser)
    (hq : queued_ids st2 = queued_ids st)
    (hp : popped_ids st = P1 ++ x :: P2) (hp2 : popped_ids st2 = P1 ++ P2)
    (hr : ∀ i, i ∈ running_ids st2 → i ∈ running_ids st ∨ i = x)
    (ha : ∀ i, i ∈ active_ids st2 → i ∈ active_ids st ∨ i = x)
    (hc : completed_ids st2 = completed_ids st) : ids_invariant st2 := by
  obtain ⟨hb, hn, hd1, hd2⟩ := h
  unfold ids_invariant
  rw [hd, hq, hp2, hc]
  rw [hp] at hb hn hd1
  have hxP : x ∈ queued_ids st ++ (P1 ++ x :: P2) := by simp
  have hsub : (queued_ids st ++ (P1 ++ P2)).Sublist (queued_ids st ++ (P1 ++ x :: P2)) :=
    List.Sublist.append (List.Sublist.refl _)
      (List.Sublist.append (List.Sublist.refl _) (List.sublist_cons_self _ _))
  have hxnot : x ∉ queued_ids st ++ (P1 ++ P2) := by
    intro hmem
    have hn2 := hn
    simp only [List.nodup_append, List.nodup_cons, List.mem_append, List.mem_cons] at hn2 hmem
    obtain ⟨hnq, ⟨hn1, ⟨hx2, -⟩, hdis1⟩, hdis⟩ := hn2
    rcases hmem with hmem | hmem | hmem
    · exact hdis hmem (by simp)
    · exact hdis1 hmem (by simp)
    · exact hx2 hmem
  have hxb : x < st.job_id_dispenser := hb x (by simp)
  refine ⟨?_, List.Nodup.sublist hsub hn, ?_, ?_⟩
  · intro i hi
    simp only [List.mem_append] at hi
    rcases hi with (((hi | hi) | hi) | hi) | hi
    · exact hb i (by simp [hi])
    · exact hb i (by
        rcases hi with hi | hi
        · simp [hi]
        · simp [hi])
    · rcases hr i hi with hi | hi
      · exact hb i (by simp [hi])
      · rw [hi]; exact hxb
    · rcases ha i hi with hi | hi
      · exact hb i (by simp [hi])
      · rw [hi]; exact hxb
    · exact hb i (by simp [hi])
  · intro i hi hi2
    have hi1 := hsub.subset hi
    simp only [List.mem_append] at hi2
    rcases hi2 with (hi2 | hi2) | hi2
    · rcases hr i hi2 with hi2 | hi2
      · exact hd1 i hi1 (by simp [hi2])
      · rw [hi2] at hi; exact hxnot hi
    · rcases ha i hi2 with hi2 | hi2
      · exact hd1 i hi1 (by simp [hi2])
      · rw [hi2] at hi; exact hxnot hi
    · exact hd1 i hi1 (by simp [hi2])
  · intro i hi hi2
    rcases ha i hi with hi | hi
    · exact hd2 i hi hi2
    · rw [hi] at hi2
      exact hd1 x hxP (by simp [hi2])

theorem ids_invariant_complete (st st2 : work_handler) (x : Nat)
    (h : ids_invariant st) (hd : st2.job_id_dispenser = st.job_id_dispenser)
    (hq : queued_ids st2 = queued_ids st) (hp : popped_ids st2 = popped_ids st)
    (hx : x ∈ running_ids st)
    (hr : ∀ i, i ∈ running_ids st2 → i ∈ running_ids st)
    (ha : ∀ i, i ∈ active_ids st2 → i ∈ active_ids st ∧ i ≠ x)
    (hc : ∀ i, i ∈ completed_ids st2 → i ∈ completed_ids st ∨ i = x) : ids_invariant st2 := by
  obtain ⟨hb, hn, hd1, hd2⟩ := h
  unfold ids_invariant
  rw [hd, hq, hp]
  have hxb : x < st.job_id_dispenser := hb x (by simp [hx])
  refine ⟨?_, hn, ?_, ?_⟩
  · intro i hi
    simp only [List.mem_append] at hi
    rcases hi with (((hi | hi) | hi) | hi) | hi
    · exact hb i (by simp [hi])
    · exact hb i (by simp [hi])
    · exact hb i (by simp [hr i hi])
    · exact hb i (by simp [(ha i hi).1])
    · rcases hc i hi with hi | hi
      · exact hb i (by simp [hi])
      · rw [hi]; exact hxb
  · intro i hi hi2
    simp only [List.mem_append] at hi2
    rcases hi2 with (hi2 | hi2) | hi2
    · exact hd1 i hi (by simp [hr i hi2])
    · exact hd1 i hi (by simp [(ha i hi2).1])
    · rcases hc i hi2 with hi2 | hi2
      · exact hd1 i hi (by simp [hi2])
      · rw [hi2] at hi
        exact hd1 x hi (by simp [hx])
  · intro i hi hi2
    rcases hc i hi2 with hi2 | hi2
    · exact hd2 i (ha i hi).1 hi2
    · exact (ha i hi).2 hi2

theorem ids_invariant_worker_activate (st : work_handler) (k : Nat)
    (device : Except String Unit) (h : ids_invariant st) :
    ids_invariant (worker_activate st k device).1 := by
  unfold worker_activate
  cases hk : st.popped.get? k with
  | none => exact h
  | some t =>
    obtain ⟨id, j⟩ := t
    obtain ⟨l1, l2, h1, h2⟩ := get?_split st.popped k (id, j) hk
    have hp : popped_ids st = List.map (fun t : Option String × job => t.2.job_id) l1
        ++ j.job_id :: List.map (fun t : Option String × job => t.2.job_id) l2 := by
      unfold popped_ids
      rw [h1, List.map_append, List.map_cons]
    dsimp only
    rw [h2]
    cases device with
    | error what =>
      dsimp only
      have hsub : (List.map (fun t : Option String × job => t.2.job_id) (l1 ++ l2)).Sublist
          (popped_ids st) := by
        rw [hp, List.map_append]
        exact List.Sublist.append (List.Sublist.refl _) (List.sublist_cons_self _ _)
      refine ids_invariant_transfer st _ h (Nat.le_refl _) ?_ ?_ ?_ ?_ ?_
      · exact List.Nodup.sublist (List.Sublist.append (List.Sublist.refl _) hsub) h.2.1
      · intro i hi
        unfold queued_ids at hi ⊢
        rw [List.mem_append] at hi ⊢
        rcases hi with hi | hi
        · exact Or.inl hi
        · exact Or.inr (hsub.subset hi)
      · exact fun i hi => hi
      · exact fun i hi => hi
      · exact fun i hi => hi
    | ok u =>
      dsimp only
      refine ids_invariant_activate st _ j.job_id _ _ h rfl rfl hp ?_ ?_ ?_ rfl
      · unfold popped_ids
        dsimp only
        rw [List.map_append]
      · intro i hi
        unfold running_ids at hi ⊢
        dsimp only at hi
        rw [List.map_append, List.mem_append] at hi
        rcases hi with hi | hi
        · exact Or.inl hi
        · right
          simpa using hi
      · intro i hi
        unfold active_ids at hi ⊢
        dsimp only at hi
        rw [List.mem_map] at hi
        obtain ⟨x, hx, hxi⟩ := hi
        rcases mem_active_insert j x _ hx with hx | hx
        · exact Or.inl (List.mem_map.mpr ⟨x, hx, hxi⟩)
        · right
          rw [← hxi, hx]

theorem ids_invariant_worker_complete (e : externals) (cfg : config) (st : work_handler)
    (k : Nat) (h : ids_invariant st) :
    ids_invariant (worker_complete e cfg st k).1 := by
  unfold worker_complete
  cases hk : st.running.get? k with
  | none => exact h
  | some t =>
    obtain ⟨id, j⟩ := t
    obtain ⟨l1, l2, h1, h2⟩ := get?_split st.running k (id, j) hk
    have hsub : (List.map (fun t : Option String × job => t.2.job_id) (l1 ++ l2)).Sublist
        (running_ids st) := by
      unfold running_ids
      rw [h1, List.map_append, List.map_append, List.map_cons]
      exact List.Sublist.append (List.Sublist.refl _) (List.sublist_cons_self _ _)
    have hx : j.job_id ∈ running_ids st := by
      unfold running_ids
      rw [h1]
      simp
    dsimp only
    rw [h2]
    cases worker_result e cfg j with
    | error what =>
      dsimp only
      refine ids_invariant_transfer st _ h (Nat.le_refl _) h.2.1 (fun i hi => hi) ?_
        (fun i hi => hi) (fun i hi => hi)
      intro i hi
      exact hsub.subset hi
    | ok res =>
      obtain ⟨result, testing⟩ := res
      dsimp only
      refine ids_invariant_complete st _ j.job_id h rfl rfl rfl hx ?_ ?_ ?_
      · intro i hi
        exact hsub.subset hi
      · intro i hi
        unfold active_ids at hi ⊢
        dsimp only at hi
        rw [List.mem_map] at hi
        obtain ⟨x, hx2, hxi⟩ := hi
        obtain ⟨hxa, hxne⟩ := mem_active_erase _ x _ hx2
        exact ⟨List.mem_map.mpr ⟨x, hxa, hxi⟩, by rw [← hxi]; exact hxne⟩
      · intro i hi
        unfold completed_ids at hi ⊢
        dsimp only at hi
        rw [List.mem_map] at hi
        obtain ⟨x, hx2, hxi⟩ := hi
        rcases mem_completed_push_back _ _ x _ hx2 with hx2 | hx2
        · exact Or.inl (List.mem_map.mpr ⟨x, hx2, hxi⟩)
        · right
          rw [← hxi, hx2]

theorem ids_invariant_step (e : externals) (cfg : config) (st : work_handler) (ev : event)
    (h : ids_invariant st) (hw : st.job_id_dispenser + 1 < 2 ^ 32) :
    ids_invariant (step e cfg st ev).1 ∧
      (step e cfg st ev).1.job_id_dispenser ≤ st.job_id_dispenser + 1 := by
  cases ev with
  | request r => exact ids_invariant_request e cfg st r h hw
  | queue_delete =>
    refine ⟨ids_invariant_queue_delete cfg st h, ?_⟩
    show (handle_queue_delete_request cfg st).1.job_id_dispenser ≤ _
    unfold handle_queue_delete_request
    split <;> exact Nat.le_succ _
  | worker_pop k =>
    refine ⟨ids_invariant_worker_pop st k h, ?_⟩
    show (worker_pop st k).1.job_id_dispenser ≤ _
    unfold worker_pop
    split
    · exact Nat.le_succ _
    · dsimp only
      split <;> exact Nat.le_succ _
  | worker_activate k device =>
    refine ⟨ids_invariant_worker_activate st k device h, ?_⟩
    show (worker_activate st k device).1.job_id_dispenser ≤ _
    unfold worker_activate
    split
    · exact Nat.le_succ _
    · dsimp only
      split <;> exact Nat.le_succ _
  | worker_complete k =>
    refine ⟨ids_invariant_worker_complete e cfg st k h, ?_⟩
    show (worker_complete e cfg st k).1.job_id_dispenser ≤ _
    unfold worker_complete
    split
    · exact Nat.le_succ _
    · dsimp only
      split <;> exact Nat.le_succ _

theorem ids_invariant_run (e : externals) (cfg : config) :
    ∀ (events : List event) (st : work_handler), ids_invariant st →
      st.job_id_dispenser + events.length < 2 ^ 32 →
      ids_invariant (run e cfg st events) ∧
        (run e cfg st events).job_id_dispenser ≤ st.job_id_dispenser + events.length := by
  intro events
  induction events with
  | nil => intro st h _; exact ⟨h, Nat.le_refl _⟩
  | cons ev rest ih =>
    intro st h hw
    rw [run_cons]
    rw [List.length_cons] at hw ⊢
    obtain ⟨h1, h2⟩ := ids_invariant_step e cfg st ev h (by omega)
    obtain ⟨h3, h4⟩ := ih _ h1 (by omega)
    exact ⟨h3, by omega⟩

theorem ids_invariant_init : ids_invariant work_handler.init := by
  refine ⟨?_, ?_, ?_, ?_⟩
  · intro i hi; cases hi
  · exact List.nodup_nil
  · intro i hi; cases hi
  · intro i hi; cases hi

/-! ## Running the dispenser around -/

theorem step_missing_hash (e : externals) (cfg : config) (st : work_handler)
    (hdev : cfg.devices ≠ 0) :
    (step e cfg st (event.request missing_hash_request)).1
      = { st with job_id_dispenser := (st.job_id_dispenser + 1) % 2 ^ 32 } := by
  show (handle_request_async e cfg st missing_hash_request).1 = _
  have ha : missing_hash_request.action = some "work_generate" := rfl
  unfold handle_request_async
  rw [if_pos ha]
  unfold handle_work_generate
  rw [if_neg hdev]
  rfl

theorem run_replicate_missing_hash (e : externals) (cfg : config) (hdev : cfg.devices ≠ 0) :
    ∀ (n : Nat) (st : work_handler), st.job_id_dispenser < 2 ^ 32 →
      run e cfg st (List.replicate n (event.request missing_hash_request))
        = { st with job_id_dispenser := (st.job_id_dispenser + n) % 2 ^ 32 } := by
  intro n
  induction n with
  | zero =>
    intro st h
    show st = _
    rw [Nat.add_zero, Nat.mod_eq_of_lt h]
  | succ m ih =>
    intro st h
    rw [List.replicate_succ, run_cons, step_missing_hash e cfg st hdev,
      ih _ (Nat.mod_lt _ (by norm_num))]
    dsimp only
    congr 1
    omega

/-! ## The collections -/

/-- C13, amended: in every state reached from start-up by fewer than
`2^32 - 1` steps (requests, purges, worker pops, activations and completions),
so that the 32-bit id dispenser has not wrapped, no job id is present in more
than one of the queued, active and completed collections. -/
theorem collections_disjoint_until_wrap (e : externals) (cfg : config) (events : List event)
    (h : events.length + 1 < 2 ^ 32) (i : Nat) :
    ¬ (i ∈ queued_ids (run e cfg work_handler.init events) ∧
        i ∈ active_ids (run e cfg work_handler.init events)) ∧
    ¬ (i ∈ queued_ids (run e cfg work_handler.init events) ∧
        i ∈ completed_ids (run e cfg work_handler.init events)) ∧
    ¬ (i ∈ active_ids (run e cfg work_handler.init events) ∧
        i ∈ completed_ids (run e cfg work_handler.init events)) := by
  have hinv := (ids_invariant_run e cfg events work_handler.init ids_invariant_init
    (by show 1 + events.length < 2 ^ 32; omega)).1
  obtain ⟨-, -, hd1, hd2⟩ := hinv
  refine ⟨?_, ?_, ?_⟩
  · rintro ⟨hq, ha⟩
    exact hd1 i (List.mem_append_left _ hq)
      (List.mem_append_left _ (List.mem_append_right _ ha))
  · rintro ⟨hq, hc⟩
    exact hd1 i (List.mem_append_left _ hq) (List.mem_append_right _ hc)
  · rintro ⟨ha, hc⟩
    exact hd2 i ha hc

theorem collections_disjoint_until_wrap_witness :
    ¬ (1 ∈ queued_ids (run (spec_externals zero_digest_env) mock_config work_handler.init
          one_job_events) ∧
        1 ∈ active_ids (run (spec_externals zero_digest_env) mock_config work_handler.init
          one_job_events)) ∧
    ¬ (1 ∈ queued_ids (run (spec_externals zero_digest_env) mock_config work_handler.init
          one_job_events) ∧
        1 ∈ completed_ids (run (spec_externals zero_digest_env) mock_config work_handler.init
          one_job_events)) ∧
    ¬ (1 ∈ active_ids (run (spec_externals zero_digest_env) mock_config work_handler.init
          one_job_events) ∧
        1 ∈ completed_ids (run (spec_externals zero_digest_env) mock_config work_handler.init
          one_job_events)) :=
  collections_disjoint_until_wrap (spec_externals zero_digest_env) mock_config one_job_events
    (by decide) 1

/-- C13 as stated fails: the id dispenser is a 32-bit `unsigned`. After a job
with id 1 has completed, `2^32 - 1` further job constructions (here requests
without `hash`, which construct a job and fail) bring the dispenser back to 1,
and the next accepted request queues a job with id 1 while the completed
collection still holds a job with id 1. -/
theorem collections_disjoint_counterexample :
    1 ∈ queued_ids (run (spec_externals zero_digest_env) mock_config work_handler.init
      (one_job_events ++ (List.replicate (2 ^ 32 - 1) (event.request missing_hash_request)
        ++ [event.request zero_hash_request]))) ∧
    1 ∈ completed_ids (run (spec_externals zero_digest_env) mock_config work_handler.init
      (one_job_events ++ (List.replicate (2 ^ 32 - 1) (event.request missing_hash_request)
        ++ [event.request zero_hash_request]))) := by
  rw [run_append, run_append,
    run_replicate_missing_hash _ _ (by decide) _ _ (by decide)]
  decide

/-! ## Dequeue order -/

theorem queue_push_append (j : job) : ∀ jobs : List job,
    (∀ x, x ∈ jobs → j.before x = false) → queue_push j jobs = jobs ++ [j] := by
  intro jobs
  induction jobs with
  | nil => intro _; rfl
  | cons a t ih =>
    intro h
    unfold queue_push
    rw [h a (List.mem_cons_self _ _)]
    simp only [Bool.false_eq_true, if_false, List.cons_append]
    rw [ih (fun x hx => h x (List.mem_cons_of_mem _ hx))]

theorem before_false_of_later (j x : job) (hp : x.priority = j.priority)
    (hid : x.job_id < j.job_id) : j.before x = false := by
  unfold job.before
  rw [hp]
  simp
  omega

theorem default_priorities_step (e : externals) (cfg : config) (st : work_handler)
    (ev : event) (hprio : cfg.allow_prioritization = false) (h : default_priorities st) :
    default_priorities (step e cfg st ev).1 := by
  cases ev with
  | request r =>
    show default_priorities (handle_request_async e cfg st r).1
    unfold handle_request_async
    split
    · rcases handle_work_generate_cases e cfg st r with ⟨h1, -⟩ | ⟨h1, -⟩ | ⟨j, -, hj, h1, -⟩
      · rw [h1]; exact h
      · rw [h1]; exact h
      · rw [h1]
        intro x hx
        rcases (mem_queue_push j x st.jobs).mp hx with hx | hx
        · rw [hx]; exact hj hprio
        · exact h x hx
    · split
      · rw [handle_work_validate_state]; exact h
      · split
        · rcases handle_work_cancel_cases e st r with h1 | ⟨hash, h1⟩
          · rw [h1]; exact h
          · rw [h1]
            intro x hx
            exact h x (List.mem_of_mem_eraseP hx)
        · exact h
  | queue_delete =>
    show default_priorities (handle_queue_delete_request cfg st).1
    unfold handle_queue_delete_request
    split
    · intro x hx; cases hx
    · exact h
  | worker_pop k =>
    show default_priorities (worker_pop st k).1
    unfold worker_pop
    split
    · exact h
    · dsimp only
      cases hj : st.jobs with
      | nil => intro x hx; cases hx
      | cons j rest =>
        intro x hx
        exact h x (by rw [hj]; exact List.mem_cons_of_mem _ hx)
  | worker_activate k device =>
    show default_priorities (worker_activate st k device).1
    unfold worker_activate
    split
    · exact h
    · dsimp only
      split <;> exact h
  | worker_complete k =>
    show default_priorities (worker_complete e cfg st k).1
    unfold worker_complete
    split
    · exact h
    · dsimp only
      split <;> exact h

theorem default_priorities_run (e : externals) (cfg : config)
    (hprio : cfg.allow_prioritization = false) :
    ∀ (events : List event) (st : work_handler), default_priorities st →
      default_priorities (run e cfg st events) := by
  intro events
  induction events with
  | nil => intro st h; exact h
  | cons ev rest ih =>
    intro st h
    rw [run_cons]
    exact ih _ (default_priorities_step e cfg st ev hprio h)

theorem handle_request_async_accepted (e : externals) (cfg : config) (st : work_handler)
    (request : ptree_request) (h : (handle_request_async e cfg st request).2 = none) :
    ∃ j : job, j.job_id = st.job_id_dispenser ∧
      (cfg.allow_prioritization = false → j.priority = 0) ∧
      (handle_request_async e cfg st request).1.jobs = queue_push j st.jobs := by
  have hpost := handle_request_async_posts_id e cfg st request h
  unfold handle_request_async at h hpost ⊢
  by_cases hg : request.action = some "work_generate"
  · rw [if_pos hg] at h ⊢
    rcases handle_work_generate_cases e cfg st request with ⟨-, h2⟩ | ⟨-, h2⟩ | ⟨j, hj, hp, h1, -⟩
    · exact absurd h h2
    · exact absurd h h2
    · exact ⟨j, hj, hp, by rw [h1]⟩
  · exfalso
    rw [if_neg hg] at h hpost
    by_cases hv : request.action = some "work_validate"
    · rw [if_pos hv] at hpost
      rw [handle_work_validate_state] at hpost
      simp at hpost
    · rw [if_neg hv] at h hpost
      by_cases hc : request.action = some "work_cancel"
      · rw [if_pos hc] at hpost
        rcases handle_work_cancel_cases e st request with h1 | ⟨hash, h1⟩
        · rw [h1] at hpost
          simp at hpost
        · rw [h1] at hpost
          simp at hpost
      · rw [if_neg hc] at h
        cases h

theorem fifo_of_atomic_requests (e : externals) (cfg : config) (events : List event)
    (request : ptree_request) (hprio : cfg.allow_prioritization = false)
    (hlen : events.length + 1 < 2 ^ 32)
    (hacc : (handle_request_async e cfg (run e cfg work_handler.init events) request).2
      = none) :
    default_priorities (run e cfg work_handler.init events) ∧
    (∃ j : job, j.priority = 0 ∧
      (handle_request_async e cfg (run e cfg work_handler.init events) request).1.jobs
        = (run e cfg work_handler.init events).jobs ++ [j]) ∧
    (∀ k id top rest, (run e cfg work_handler.init events).posted.get? k = some id →
      (run e cfg work_handler.init events).jobs = top :: rest →
      (worker_pop (run e cfg work_handler.init events) k).1.jobs = rest ∧
      (worker_pop (run e cfg work_handler.init events) k).1.popped
        = (run e cfg work_handler.init events).popped ++ [(id, top)]) := by
  have hdef := default_priorities_run e cfg hprio events work_handler.init
    (fun x hx => by cases hx)
  have hinv := (ids_invariant_run e cfg events work_handler.init ids_invariant_init
    (by show 1 + events.length < 2 ^ 32; omega)).1
  refine ⟨hdef, ?_, ?_⟩
  · obtain ⟨j, hj, hp, hjobs⟩ := handle_request_async_accepted e cfg _ request hacc
    refine ⟨j, hp hprio, ?_⟩
    rw [hjobs]
    apply queue_push_append
    intro x hx
    apply before_false_of_later
    · rw [hdef x hx, hp hprio]
    · rw [hj]
      apply hinv.1
      unfold queued_ids
      simp only [List.mem_append]
      exact Or.inl (Or.inl (Or.inl (Or.inl (List.mem_map.mpr ⟨x, hx, rfl⟩))))
  · intro k id top rest hk hjobs
    unfold worker_pop
    rw [hk]
    dsimp only
    rw [hjobs]
    exact ⟨rfl, rfl⟩

theorem dispenser_wrap_reorders_queue :
    sample_config.allow_prioritization = false ∧
    queued_ids (run (spec_externals zero_digest_env) sample_config work_handler.init
      (List.replicate (2 ^ 32 - 2) (event.request missing_hash_request)
        ++ [event.request zero_hash_request])) = [2 ^ 32 - 1] ∧
    queued_ids (run (spec_externals zero_digest_env) sample_config work_handler.init
      (List.replicate (2 ^ 32 - 2) (event.request missing_hash_request)
        ++ [event.request zero_hash_request, event.request one_hash_request]))
      = [0, 2 ^ 32 - 1] ∧
    popped_ids (run (spec_externals zero_digest_env) sample_config work_handler.init
      (List.replicate (2 ^ 32 - 2) (event.request missing_hash_request)
        ++ [event.request zero_hash_request, event.request one_hash_request,
            event.worker_pop 0])) = [0] := by
  rw [run_append, run_append, run_append,
    run_replicate_missing_hash _ _ (by decide) _ _ (by decide)]
  decide

/-! ## Requests on several threads -/

theorem handle_work_generate_eq_prepare (e : externals) (cfg : config) (st : work_handler)
    (r : ptree_request) :
    handle_work_generate e cfg st r =
      match prepare_work_generate e cfg st.job_id_dispenser r with
      | (dispenser, .error what) =>
        ({ st with job_id_dispenser := dispenser }, some (create_error_response r.id what))
      | (dispenser, .ok job_l) =>
        queue_request cfg { st with job_id_dispenser := dispenser } job_l r.id := by
  unfold handle_work_generate prepare_work_generate
  by_cases hdev : cfg.devices = 0
  · rw [if_pos hdev, if_pos hdev]
  · rw [if_neg hdev, if_neg hdev]
    dsimp only
    cases request_hash : r.hash with
    | none => rfl
    | some root =>
      dsimp only
      cases e.u256_from_hex root with
      | error what => rfl
      | ok hash =>
        dsimp only
        cases requested_difficulty e cfg r with
        | error what => rfl
        | ok difficulty => rfl

theorem prepare_work_generate_job (e : externals) (cfg : config) (dispenser : Nat)
    (r : ptree_request) (d : Nat) (j : job)
    (h : prepare_work_generate e cfg dispenser r = (d, .ok j)) :
    j.job_id = dispenser ∧ (cfg.allow_prioritization = false → j.priority = 0) := by
  unfold prepare_work_generate at h
  by_cases hdev : cfg.devices = 0
  · rw [if_pos hdev] at h
    cases h
  · rw [if_neg hdev] at h
    dsimp only at h
    cases request_hash : r.hash with
    | none => rw [request_hash] at h; cases h
    | some root =>
      rw [request_hash] at h
      dsimp only at h
      cases hp : e.u256_from_hex root with
      | error what => rw [hp] at h; cases h
      | ok hash =>
        rw [hp] at h
        dsimp only at h
        cases hq : requested_difficulty e cfg r with
        | error what => rw [hq] at h; cases h
        | ok difficulty =>
          rw [hq] at h
          dsimp only at h
          cases h
          constructor
          · split <;> rfl
          · intro hprio
            rw [hprio]
            rfl

theorem thread_run_cons (e : externals) (cfg : config) (s : handler_threads)
    (ev : thread_event) (rest : List thread_event) :
    thread_run e cfg s (ev :: rest) = thread_run e cfg (thread_step e cfg s ev).1 rest := rfl

theorem thread_run_append (e : externals) (cfg : config) (s : handler_threads)
    (a b : List thread_event) :
    thread_run e cfg s (a ++ b) = thread_run e cfg (thread_run e cfg s a) b := by
  unfold thread_run
  rw [List.foldl_append]

/-- A step that runs without interleaving is the step of `step`: for a
request, the part before the lock followed at once by the block under the lock
is `handle_request_async`. -/
theorem thread_run_sequential (e : externals) (cfg : config) (st : work_handler) (ev : event) :
    thread_run e cfg { handler := st, submitting := [] } (sequential ev)
      = { handler := (step e cfg st ev).1, submitting := [] } := by
  cases ev with
  | request r =>
    show (thread_step e cfg (thread_step e cfg { handler := st, submitting := [] }
      (thread_event.begin_request r)).1 (thread_event.enter_queue 0)).1 = _
    show _ = { handler := (handle_request_async e cfg st r).1, submitting := [] }
    unfold handle_request_async
    by_cases hg : r.action = some "work_generate"
    · rw [if_pos hg, handle_work_generate_eq_prepare]
      unfold thread_step
      dsimp only
      rw [if_pos hg]
      cases prepare_work_generate e cfg st.job_id_dispenser r with
      | mk dispenser outcome =>
        cases outcome with
        | error what => rfl
        | ok job_l => rfl
    · rw [if_neg hg]
      unfold thread_step
      dsimp only
      rw [if_neg hg]
      unfold handle_request_async
      rw [if_neg hg]
      rfl
  | queue_delete => rfl
  | worker_pop k => rfl
  | worker_activate k device => rfl
  | worker_complete k => rfl

theorem thread_run_sequential_events (e : externals) (cfg : config) :
    ∀ (events : List event) (st : work_handler),
      thread_run e cfg { handler := st, submitting := [] } (events.flatMap sequential)
        = { handler := run e cfg st events, submitting := [] } := by
  intro events
  induction events with
  | nil => intro st; rfl
  | cons ev rest ih =>
    intro st
    rw [List.flatMap_cons, thread_run_append, thread_run_sequential, ih, run_cons]

theorem thread_default_priorities_step (e : externals) (cfg : config) (s : handler_threads)
    (ev : thread_event) (hprio : cfg.allow_prioritization = false)
    (h : thread_default_priorities s) :
    thread_default_priorities (thread_step e cfg s ev).1 := by
  obtain ⟨hq, hs⟩ := h
  cases ev with
  | begin_request r =>
    unfold thread_step
    dsimp only
    by_cases hg : r.action = some "work_generate"
    · rw [if_pos hg]
      cases hp : prepare_work_generate e cfg s.handler.job_id_dispenser r with
      | mk dispenser outcome =>
        cases outcome with
        | error what => exact ⟨hq, hs⟩
        | ok job_l =>
          refine ⟨hq, ?_⟩
          intro t ht
          dsimp only at ht
          rw [List.mem_append, List.mem_singleton] at ht
          rcases ht with ht | ht
          · exact hs t ht
          · rw [ht]
            exact (prepare_work_generate_job e cfg _ r dispenser job_l hp).2 hprio
    · rw [if_neg hg]
      exact ⟨default_priorities_step e cfg s.handler (event.request r) hprio hq, hs⟩
  | enter_queue k =>
    unfold thread_step
    dsimp only
    cases hk : s.submitting.get? k with
    | none => exact ⟨hq, hs⟩
    | some t =>
      obtain ⟨id, job_l⟩ := t
      have hmem : (id, job_l) ∈ s.submitting := List.get?_mem hk
      refine ⟨?_, fun t ht => hs t (List.mem_of_mem_eraseIdx ht)⟩
      dsimp only
      unfold queue_request
      split
      · intro x hx
        rcases (mem_queue_push job_l x _).mp hx with hx | hx
        · rw [hx]
          exact hs _ hmem
        · exact hq x hx
      · exact hq
  | other ev2 => exact ⟨default_priorities_step e cfg s.handler ev2 hprio hq, hs⟩

theorem thread_default_priorities_run (e : externals) (cfg : config)
    (hprio : cfg.allow_prioritization = false) :
    ∀ (schedule : List thread_event) (s : handler_threads), thread_default_priorities s →
      thread_default_priorities (thread_run e cfg s schedule) := by
  intro schedule
  induction schedule with
  | nil => intro s h; exact h
  | cons ev rest ih =>
    intro s h
    rw [thread_run_cons]
    exact ih _ (thread_default_priorities_step e cfg s ev hprio h)

theorem thread_accepted (e : externals) (cfg : config) (st : work_handler) (r : ptree_request)
    (h1 : (thread_step e cfg { handler := st, submitting := [] }
      (thread_event.begin_request r)).2 = none)
    (h2 : (thread_step e cfg (thread_step e cfg { handler := st, submitting := [] }
      (thread_event.begin_request r)).1 (thread_event.enter_queue 0)).2 = none) :
    (handle_request_async e cfg st r).2 = none := by
  unfold handle_request_async
  unfold thread_step at h1 h2
  dsimp only at h1 h2
  by_cases hg : r.action = some "work_generate"
  · rw [if_pos hg, handle_work_generate_eq_prepare]
    rw [if_pos hg] at h1 h2
    cases hp : prepare_work_generate e cfg st.job_id_dispenser r with
    | mk dispenser outcome =>
      rw [hp] at h1 h2
      cases outcome with
      | error what => cases h1
      | ok job_l => exact h2
  · rw [if_neg hg]
    rw [if_neg hg] at h1
    unfold handle_request_async at h1
    rw [if_neg hg] at h1
    exact h1

/-- C12, amended: with `allow_prioritization = false`, under every
interleaving of requests and worker steps each queued job (and each job about
to be queued) has the default priority, whatever `priority` its request
supplied. When the requests are handled one after another (no other step runs
between a request's job construction and its block under `jobs_mutex`) and
fewer than `2^32 - 1` steps have been taken since start-up (so that the 32-bit
id dispenser has not wrapped), no request is in flight between steps, every
accepted submit puts its job behind all queued jobs, and a worker pops the job
at the front: the jobs are dequeued in the order they were submitted. -/
theorem fifo_sequential_until_wrap (e : externals) (cfg : config)
    (schedule : List thread_event) (events : List event) (request : ptree_request)
    (hprio : cfg.allow_prioritization = false) (hlen : events.length + 1 < 2 ^ 32)
    (hbegin : (thread_step e cfg
      (thread_run e cfg handler_threads.init (events.flatMap sequential))
      (thread_event.begin_request request)).2 = none)
    (hqueue : (thread_step e cfg (thread_step e cfg
      (thread_run e cfg handler_threads.init (events.flatMap sequential))
      (thread_event.begin_request request)).1 (thread_event.enter_queue 0)).2 = none) :
    thread_default_priorities (thread_run e cfg handler_threads.init schedule) ∧
    (thread_run e cfg handler_threads.init (events.flatMap sequential)).submitting = [] ∧
    (∃ j : job, j.priority = 0 ∧
      (thread_run e cfg (thread_run e cfg handler_threads.init (events.flatMap sequential))
          (sequential (event.request request))).handler.jobs
        = (thread_run e cfg handler_threads.init (events.flatMap sequential)).handler.jobs
            ++ [j]) ∧
    (∀ k id top rest,
      (thread_run e cfg handler_threads.init (events.flatMap sequential)).handler.posted.get? k
        = some id →
      (thread_run e cfg handler_threads.init (events.flatMap sequential)).handler.jobs
        = top :: rest →
      (thread_step e cfg (thread_run e cfg handler_threads.init (events.flatMap sequential))
          (thread_event.other (event.worker_pop k))).1.handler.jobs = rest ∧
      (thread_step e cfg (thread_run e cfg handler_threads.init (events.flatMap sequential))
          (thread_event.other (event.worker_pop k))).1.handler.popped
        = (thread_run e cfg handler_threads.init (events.flatMap sequential)).handler.popped
            ++ [(id, top)]) := by
  have hseq : thread_run e cfg handler_threads.init (events.flatMap sequential)
      = { handler := run e cfg work_handler.init events, submitting := [] } :=
    thread_run_sequential_events e cfg events work_handler.init
  rw [hseq] at hbegin hqueue ⊢
  have hacc := thread_accepted e cfg _ request hbegin hqueue
  obtain ⟨-, ⟨j, hj0, hjobs⟩, hpop⟩ := fifo_of_atomic_requests e cfg events request hprio hlen hacc
  refine ⟨?_, rfl, ⟨j, hj0, ?_⟩, ?_⟩
  · apply thread_default_priorities_run e cfg hprio schedule handler_threads.init
    constructor
    · intro x hx
      cases hx
    · intro t ht
      cases ht
  · rw [thread_run_sequential]
    exact hjobs
  · intro k id top rest hk hjb
    exact hpop k id top rest hk hjb

theorem fifo_sequential_until_wrap_witness :
    thread_default_priorities (thread_run (spec_externals zero_digest_env) sample_config
      handler_threads.init
      [thread_event.begin_request priority_request, thread_event.begin_request one_hash_request,
       thread_event.enter_queue 1]) ∧
    (thread_run (spec_externals zero_digest_env) sample_config handler_threads.init
      ([event.request priority_request].flatMap sequential)).submitting = [] ∧
    (∃ j : job, j.priority = 0 ∧
      (thread_run (spec_externals zero_digest_env) sample_config
          (thread_run (spec_externals zero_digest_env) sample_config handler_threads.init
            ([event.request priority_request].flatMap sequential))
          (sequential (event.request one_hash_request))).handler.jobs
        = (thread_run (spec_externals zero_digest_env) sample_config handler_threads.init
            ([event.request priority_request].flatMap sequential)).handler.jobs ++ [j]) :=
  ⟨(fifo_sequential_until_wrap (spec_externals zero_digest_env) sample_config
      [thread_event.begin_request priority_request, thread_event.begin_request one_hash_request,
       thread_event.enter_queue 1]
      [event.request priority_request] one_hash_request rfl (by decide) (by decide)
      (by decide)).1,
    (fifo_sequential_until_wrap (spec_externals zero_digest_env) sample_config []
      [event.request priority_request] one_hash_request rfl (by decide) (by decide)
      (by decide)).2.1,
    (fifo_sequential_until_wrap (spec_externals zero_digest_env) sample_config []
      [event.request priority_request] one_hash_request rfl (by decide) (by decide)
      (by decide)).2.2.1⟩

/-- C12 as stated fails, in two ways. (1) Requests interleave: a job's id is
fetched when the job is constructed, outside any lock, and the job is pushed
later under `jobs_mutex`. If request A (id 1) and request B (id 2) are
constructed in that order and B is pushed first, the queue then holds A in
front of B although B entered the queue first; and if a worker pops between
the two pushes, B is dequeued before A although A was submitted first. No
wrap is involved. (2) The id dispenser is a 32-bit `unsigned`: after
`2^32 - 2` job constructions two requests handled one after another get the ids
`2^32 - 1` and 0, and the second is dequeued first. -/
theorem fifo_counterexample :
    sample_config.allow_prioritization = false ∧
    queued_ids (thread_run (spec_externals zero_digest_env) sample_config handler_threads.init
      [thread_event.begin_request zero_hash_request,
       thread_event.begin_request one_hash_request,
       thread_event.enter_queue 1]).handler = [2] ∧
    queued_ids (thread_run (spec_externals zero_digest_env) sample_config handler_threads.init
      [thread_event.begin_request zero_hash_request,
       thread_event.begin_request one_hash_request,
       thread_event.enter_queue 1,
       thread_event.enter_queue 0]).handler = [1, 2] ∧
    popped_ids (thread_run (spec_externals zero_digest_env) sample_config handler_threads.init
      [thread_event.begin_request zero_hash_request,
       thread_event.begin_request one_hash_request,
       thread_event.enter_queue 1,
       thread_event.other (event.worker_pop 0),
       thread_event.enter_queue 0,
       thread_event.other (event.worker_pop 0)]).handler = [2, 1] ∧
    queued_ids (run (spec_externals zero_digest_env) sample_config work_handler.init
      (List.replicate (2 ^ 32 - 2) (event.request missing_hash_request)
        ++ [event.request zero_hash_request, event.request one_hash_request]))
      = [0, 2 ^ 32 - 1] ∧
    popped_ids (run (spec_externals zero_digest_env) sample_config work_handler.init
      (List.replicate (2 ^ 32 - 2) (event.request missing_hash_request)
        ++ [event.request zero_hash_request, event.request one_hash_request,
            event.worker_pop 0])) = [0] :=
  ⟨rfl, by decide, by decide, by decide, dispenser_wrap_reorders_queue.2.2.1,
    dispenser_wrap_reorders_queue.2.2.2⟩

end nano_pow_server
